import Mathlib

/-
Verification of the `invest` repository (financial-news briefing scripts).

The Python sources are shallowly embedded: text is modelled as `List Char`
(Python `str`), Python dicts keyed by strings as association lists with
insert-or-replace update, machine floats that only feed comparisons as `ℚ`,
and network I/O as explicit environments mapping each HTTP call to its
outcome (a response or a raised error).  Fallible Python code is embedded
in the `Except` monad with the httpx exception hierarchy reflected by an
error type, so that `try/except` clauses translate to an explicit handler
that only catches the exception classes named in the source.
-/

namespace Invest

/-- Python `str`, modelled as its list of characters. -/
abbrev Str := List Char

/-- Literal helper: the character list of a Lean string literal. -/
def str (s : String) : Str := s.toList

/-- Python whitespace test (`\s`, `str.strip` classes), restricted to the
ASCII whitespace that `Char.isWhitespace` recognises. -/
def isWs (c : Char) : Bool := c.isWhitespace

/-- Python `str.lower`. -/
def pyLower (s : Str) : Str := s.map Char.toLower

/-- Python `str.lstrip()`. -/
def pyLstrip (s : Str) : Str := s.dropWhile isWs

/-- Python `str.strip()`. -/
def pyStrip (s : Str) : Str := ((s.dropWhile isWs).reverse.dropWhile isWs).reverse

/-- `startsL pat s` : `s` starts with `pat` (Python `str.startswith`). -/
def startsL : Str → Str → Bool
  | [], _ => true
  | _ :: _, [] => false
  | a :: as, b :: bs => a = b && startsL as bs

/-- Python substring containment `pat in hay`. -/
def pyIn (pat : Str) : Str → Bool
  | [] => startsL pat []
  | hay@(_ :: t) => startsL pat hay || pyIn pat t

-- ── news_pipeline.py : data model ────────────────────────────────────────────

/-- A fetched news item of `news_pipeline.py` (the dict built in
`fetch_rss_source` / `_mk_item`).  The formatted `date` string is kept
abstract (strftime is outside the embedding). -/
structure PItem where
  date : Str
  source_key : Str
  source_name : Str
  title : Str
  summary : Str
  content : Str
  url : Str
deriving DecidableEq

/-- `news_pipeline.hit_by_keywords` (news_pipeline.py:139-141): keyword `k`
hits when `k.lower()` occurs in the lowercased blob
`f"{title} {summary} {content or ''}"`. -/
def hit_by_keywords (title summary content : Str) (kws : List Str) : Bool :=
  let blob := pyLower (title ++ [' '] ++ summary ++ [' '] ++ content)
  kws.any (fun k => pyIn (pyLower k) blob)

/-- Spec-worded comparison point for claim C3: substring containment in the
plain (separator-free) concatenation `title ++ summary ++ content`, as the
spec sentence words it.  This is NOT taken from the source; it exists only
to be compared against `hit_by_keywords`. -/
def spec_concat_hit (title summary content : Str) (kws : List Str) : Bool :=
  kws.any (fun k => pyIn (pyLower k) (pyLower (title ++ summary ++ content)))

/-- The keyword filtering of `news_pipeline.main` step 5 (news_pipeline.py:472):
`[it for it in all_items if not final_kws or hit_by_keywords(...)]`. -/
def hit_items (kws : List Str) (items : List PItem) : List PItem :=
  items.filter (fun it =>
    kws.isEmpty || hit_by_keywords it.title it.summary it.content kws)

/-- One line of `briefing.txt` (news_pipeline.py:485):
`f"{it['date']}  {it['source_name']} | {it['title']}"`. -/
def briefing_line (it : PItem) : Str :=
  it.date ++ str "  " ++ it.source_name ++ str " | " ++ it.title

/-- The lines written to `briefing.txt` (news_pipeline.py:484-486). -/
def briefing_lines (kws : List Str) (items : List PItem) : List Str :=
  (hit_items kws items).map briefing_line

-- ── news_pipeline.py : sources.yml records and RSS fetching ──────────────────

/-- A normalised RSS source record as produced by `load_sources`
(news_pipeline.py:144-174).  `consec_fail` passes through Python `int`. -/
structure Source where
  key : Str
  name : Str
  url : Str
  keep : Bool
  consec_fail : Int
  last_ok : Option Str
  last_error : Option Str
  ok : Bool
deriving DecidableEq

/-- One feed entry as `feedparser` presents it to `fetch_rss_source`:
`dt` is the publication instant recovered by `parse_dt` (a timestamp;
`none` when neither `published_parsed` nor `updated_parsed` is usable),
the texts are those of `entry_text`, `link` is `entry.link`. -/
structure Entry where
  dt : Option Int
  title : Str
  summary : Str
  content : Str
  link : Str
deriving DecidableEq

/-- Outcome of the guarded body of `fetch_rss_source`: either some exception
was raised during the request (class name and message), or an HTTP response
arrived with a status code and the entries `feedparser` extracted. -/
inductive RssHttp where
  | exn (ename emsg : Str)
  | resp (status : Nat) (entries : List Entry)
deriving DecidableEq

/-- Decimal rendering of a natural number, for f-strings like `f"HTTP {n}"`. -/
def natStr (n : Nat) : Str := (toString n).toList

/-- The item dict built per entry in `fetch_rss_source`
(news_pipeline.py:268-273); `fmt` stands for
`dt.strftime("%Y-%m-%d %H:%M")`. -/
def mk_rss_item (fmt : Int → Str) (key name : Str) (dt : Int) (e : Entry) : PItem :=
  { date := fmt dt
    source_key := key
    source_name := name
    title := pyStrip e.title
    summary := pyStrip e.summary
    content := pyStrip e.content
    url := pyStrip e.link }

/-- `news_pipeline.fetch_rss_source` (news_pipeline.py:248-278) applied to
outcome `r`; `now` is `datetime.now(TZ)` and
`cutoff = now - timedelta(days=SPAN_DAYS)` as timestamps.  The whole body is
inside `try`, and `except Exception` returns `(key, [], msg)`; so the
function is total. -/
def fetch_rss_source (fmt : Int → Str) (now cutoff : Int) (src : Source) (r : RssHttp) :
    Str × List PItem × Option Str :=
  match r with
  | .exn ename emsg => (src.key, [], some (ename ++ str ": " ++ emsg))
  | .resp status entries =>
    if status ≠ 200 then (src.key, [], some (str "HTTP " ++ natStr status))
    else
      (src.key,
        entries.filterMap (fun e =>
          let dt := e.dt.getD now
          if dt < cutoff then none
          else some (mk_rss_item fmt src.key src.name dt e)),
        none)

-- ── news_pipeline.py : main, health write-back ───────────────────────────────

/-- The status string `main` records per source (news_pipeline.py:445):
`"OK" if (err is None and len(items) > 0) else (err or "0 items")`
(an empty error string is falsy in Python, hence also maps to `"0 items"`). -/
def source_status (cnt : Nat) (err : Option Str) : Str :=
  if err = none ∧ 0 < cnt then str "OK"
  else match err with
    | none => str "0 items"
    | some e => if e = [] then str "0 items" else e

/-- The health-field mutation of the write-back loop
(news_pipeline.py:500-507): reset on `all_cnt > 0 and status == "OK"`,
otherwise increment `consec_fail` and record `last_error`. -/
def update_source (now_iso : Str) (s : Source) (all_cnt : Nat) (status : Str) : Source :=
  if 0 < all_cnt ∧ status = str "OK" then
    { s with consec_fail := 0, last_ok := some now_iso, last_error := none, ok := true }
  else
    { s with consec_fail := s.consec_fail + 1, last_error := some status }

/-- Per run and per source key: the `per_source_all` count (number of fetched
items) and the error component of the fetch result for that source. -/
abbrev FetchEnv := Str → Nat × Option Str

/-- The update a run applies to one source record, combining
`per_source_all.get(k, 0)`, `last_status.get(k, "-")` and the mutation of
news_pipeline.py:500-507. -/
def run_update (now_iso : Str) (env : FetchEnv) (s : Source) : Source :=
  update_source now_iso s (env s.key).1 (source_status (env s.key).1 (env s.key).2)

/-- Survivors of the write-back loop (news_pipeline.py:494-510): each source
is updated, then dropped exactly when `consec_fail >= 3` and `keep` is
falsy; the loop appends survivors to `updated` in order. -/
def writeback_updated (now_iso : Str) (sources : List Source) (env : FetchEnv) :
    List Source :=
  sources.filterMap (fun s =>
    let s' := run_update now_iso env s
    if 3 ≤ s'.consec_fail ∧ s.keep = false then none else some s')

/-- Keys removed by the write-back loop (news_pipeline.py:508-509). -/
def writeback_removed (now_iso : Str) (sources : List Source) (env : FetchEnv) :
    List Str :=
  sources.filterMap (fun s =>
    let s' := run_update now_iso env s
    if 3 ≤ s'.consec_fail ∧ s.keep = false then some s.key else none)

/-- Lexicographic string comparison, the order Python `sorted` uses on the
`key` component of the sort key of `save_sources`. -/
def strLe : Str → Str → Bool
  | [], _ => true
  | _ :: _, [] => false
  | a :: as, b :: bs => decide (a < b) || (decide (a = b) && strLe as bs)

/-- The `sorted` order of `save_sources` (news_pipeline.py:177), with key
`(not x.keep, x.key)` ascending: pinned sources first, then by key. -/
def source_le (a b : Source) : Prop :=
  (a.keep = true ∧ b.keep = false) ∨ (a.keep = b.keep ∧ strLe a.key b.key = true)

instance : DecidableRel source_le := fun a b => by
  unfold source_le; infer_instance

/-- `save_sources` (news_pipeline.py:176-178): the list that is written back
to `sources.yml`, sorted by `(not keep, key)`. -/
def save_sources (items : List Source) : List Source :=
  List.insertionSort source_le items

/-- The source list persisted at the end of one run of `main`. -/
def main_saved_sources (now_iso : Str) (sources : List Source) (env : FetchEnv) :
    List Source :=
  save_sources (writeback_updated now_iso sources env)

-- ── Python dict with string keys, insertion ordered ──────────────────────────

/-- Python dict assignment `m[k] = v` on an insertion-ordered association
list: replace in place when the key is present, else append. -/
def dictUpsert {α : Type} (m : List (Str × α)) (k : Str) (v : α) : List (Str × α) :=
  if m.any (fun p => decide (p.1 = k)) then
    m.map (fun p => if p.1 = k then (k, v) else p)
  else m ++ [(k, v)]

/-- Python dict read `m[k]` / containment `k in m` on the same model. -/
def dictGet {α : Type} (k : Str) : List (Str × α) → Option α
  | [] => none
  | p :: t => if p.1 = k then some p.2 else dictGet k t

-- ── holdings_tracker.py ──────────────────────────────────────────────────────

/-- One `holdings.json` entry as `holdings_tracker` uses it; the float
weight is modelled as `ℚ`. -/
structure Holding where
  symbol : Str
  name : Str
  weight : ℚ
deriving DecidableEq

/-- `holdings_tracker.dict_by_symbol` (holdings_tracker.py:29-30). -/
def dict_by_symbol (items : List Holding) : List (Str × Holding) :=
  items.foldl (fun m i => dictUpsert m i.symbol i) []

/-- Row type tag of a `holdings_log.csv` row. -/
inductive ChangeType where
  | REMOVE
  | ADD
  | UPDATE
deriving DecidableEq

/-- One row appended to `holdings_log.csv`
(`[today, type, symbol, name, detail]`). -/
structure ChangeRow where
  date : Str
  typ : ChangeType
  symbol : Str
  name : Str
  detail : Str
deriving DecidableEq

/-- Decimal rendering of a weight for the `detail` column
(`f"{weight}"`; the exact float formatting is opaque to the claims). -/
def ratStr (q : ℚ) : Str := (toString q).toList

/-- `holdings_tracker.compare` (holdings_tracker.py:33-47): REMOVE rows for
old-only symbols, then per new-map entry an ADD row (new-only symbol) or an
UPDATE row when the weights differ by more than `1e-6`. -/
def compare (today : Str) (old new : List Holding) : List ChangeRow :=
  let old_map := dict_by_symbol old
  let new_map := dict_by_symbol new
  (old_map.filterMap (fun p =>
    if (dictGet p.1 new_map).isSome then none
    else some ⟨today, .REMOVE, p.1, p.2.name, ratStr p.2.weight⟩))
  ++ (new_map.filterMap (fun p =>
    match dictGet p.1 old_map with
    | none => some ⟨today, .ADD, p.1, p.2.name, ratStr p.2.weight⟩
    | some oldIt =>
      if 1 / 1000000 < |oldIt.weight - p.2.weight| then
        some ⟨today, .UPDATE, p.1, p.2.name,
          ratStr oldIt.weight ++ str "->" ++ ratStr p.2.weight⟩
      else none))

/-- `holdings_tracker.append_log` (holdings_tracker.py:50-59): with no rows
it returns without touching the file; otherwise the rows are appended (the
CSV header of a fresh file is not modelled).  The file is `none` when
absent. -/
def append_log (file : Option (List ChangeRow)) (rows : List ChangeRow) :
    Option (List ChangeRow) :=
  if rows = [] then file
  else match file with
    | none => some rows
    | some existing => some (existing ++ rows)

-- ── fetch_news.py ────────────────────────────────────────────────────────────

/-- `fetch_news.Holding` (fetch_news.py:85-99). -/
structure FHolding where
  symbol : Str
  name : Str
  weight : ℚ
deriving DecidableEq

/-- `Holding.clean_symbol` (fetch_news.py:92-95): `symbol.split(".")[0]`. -/
def FHolding.clean_symbol (h : FHolding) : Str :=
  h.symbol.takeWhile (fun c => decide (c ≠ '.'))

/-- `fetch_news.NewsItem` (fetch_news.py:101-112), sentiment as `ℚ`. -/
structure NewsItem where
  title : Str
  summary : Str
  url : Str
  published_at : Str
  source : Str
  sentiment : ℚ
  symbols : List Str
deriving DecidableEq

/-- `fetch_news.relevance` (fetch_news.py:251-261); `NewsItem.fingerprint`
(`md5(url)`) is abstracted throughout as a parameter `fp` applied to the
url, since only fingerprint equality matters. -/
def relevance (item : NewsItem) (holdings : List FHolding) : ℚ :=
  let text := pyLower (item.title ++ [' '] ++ item.summary)
  let score := holdings.foldl (fun sc h =>
    if h.symbol ∈ item.symbols then sc + 6 / 10
    else if pyIn (pyLower h.clean_symbol) text || pyIn (pyLower h.name) text then
      sc + 3 / 10
    else sc) 0
  min (score + |item.sentiment| * (1 / 10)) 1

/-- The dedup dict accumulation of `gather_all` (fetch_news.py:290-296):
fetcher exceptions are skipped, each item is stored under its fingerprint,
so a later item overwrites an earlier one with an equal fingerprint. -/
def news_dict (fp : Str → Str) (results : List (Except Str (List NewsItem))) :
    List (Str × NewsItem) :=
  results.foldl (fun m res =>
    match res with
    | .error _ => m
    | .ok items => items.foldl (fun m it => dictUpsert m (fp it.url) it) m) []

/-- The in-order stream of successfully fetched items. -/
def ok_items (results : List (Except Str (List NewsItem))) : List NewsItem :=
  (results.filterMap (fun r =>
    match r with
    | .ok l => some l
    | .error _ => none)).flatten

/-- `fetch_news.gather_all` after the fetch phase (fetch_news.py:290-299):
dict values in insertion order, sorted by relevance descending (Python
`sorted` is stable; only the permutation matters for the claims), truncated
to `max_items`. -/
def gather_all (fp : Str → Str) (results : List (Except Str (List NewsItem)))
    (holdings : List FHolding) (max_items : Nat) : List NewsItem :=
  (List.insertionSort
    (fun a b => relevance b holdings ≤ relevance a holdings)
    ((news_dict fp results).map Prod.snd)).take max_items

-- ── httpx exception model ────────────────────────────────────────────────────

/-- The httpx exception classes the scripts distinguish: `RequestError`
(network errors, including `ReadTimeout`) and `HTTPStatusError` (raised by
`raise_for_status`); both extend `httpx.HTTPError`. -/
inductive HErr where
  | reqErr (msg : Str)
  | statusErr (code : Nat)
deriving DecidableEq

/-- Which exceptions an `except httpx.HTTPError` clause catches. -/
def isHTTPError : HErr → Bool
  | .reqErr _ => true
  | .statusErr _ => true

/-- Which exceptions an `except (httpx.ReadTimeout, httpx.RequestError)`
or `except httpx.RequestError` clause catches. -/
def isRequestError : HErr → Bool
  | .reqErr _ => true
  | .statusErr _ => false

/-- `r.raise_for_status()`: httpx raises `HTTPStatusError` for 4xx/5xx. -/
def raiseStatus (status : Nat) : Except HErr Unit :=
  if 400 ≤ status then .error (.statusErr status) else .ok ()

-- ── daily_push_qwen.py : call_qwen ───────────────────────────────────────────

/-- Outcome of one POST to the Qwen generation endpoint: a raised request
error, or an HTTP response carrying its status code and the
`output.text` field of its JSON body. -/
inductive QwenOutcome where
  | reqErr (msg : Str)
  | resp (status : Nat) (text : Str)
deriving DecidableEq

/-- The retry loop of `daily_push_qwen.call_qwen` (daily_push_qwen.py:67-84)
with `remaining` attempts left out of the original 3
(`attempt = 3 - remaining`); `env` maps each attempt index to its outcome.
Returns the result, the sleeps performed (in seconds, `2 ** attempt`), and
the number of HTTP attempts made.  A response raises `HTTPStatusError`
uncaught (the `except` clause names only `ReadTimeout`/`RequestError`); a
request error is retried unless `attempt == 2` (`remaining = 0` after this
one), where it is re-raised.  The fuel-0 case is unreachable from
`call_qwen`. -/
def call_qwen_loop (env : Nat → QwenOutcome) :
    Nat → Nat → List Nat → Except HErr Str × List Nat × Nat
  | _, 0, sleeps => (.error (.reqErr (str "unreachable")), sleeps, 0)
  | attempt, remaining + 1, sleeps =>
    match env attempt with
    | .resp status text =>
      match raiseStatus status with
      | .error e => (.error e, sleeps, attempt + 1)
      | .ok _ => (.ok (pyStrip text), sleeps, attempt + 1)
    | .reqErr msg =>
      if remaining = 0 then (.error (.reqErr msg), sleeps, attempt + 1)
      else call_qwen_loop env (attempt + 1) remaining (sleeps ++ [2 ^ attempt])

/-- `daily_push_qwen.call_qwen`: `for attempt in range(3)`, sleeping
`2 ** attempt` seconds after each caught failure before the next try. -/
def call_qwen (env : Nat → QwenOutcome) : Except HErr Str × List Nat × Nat :=
  call_qwen_loop env 0 3 []

-- ── daily_push_qwen.py : markdown → Telegram HTML ────────────────────────────

/-- Python `str.split(c)` (single-character separator, lossless). -/
def splitOnC (c : Char) : Str → List Str
  | [] => [[]]
  | x :: t =>
    if x = c then [] :: splitOnC c t
    else
      match splitOnC c t with
      | [] => [[x]]
      | hd :: tl => (x :: hd) :: tl

/-- Python `str.splitlines()` (with `\n` line boundaries): like
`split("\n")` but without the empty piece a trailing newline produces,
and `[]` on the empty string. -/
def pySplitlines (s : Str) : List Str :=
  if s.isEmpty then []
  else
    let l := splitOnC '\n' s
    if s.getLast? = some '\n' then l.dropLast else l

/-- Python `str.strip(c)` for a single strip character. -/
def stripChar (c : Char) (s : Str) : Str :=
  ((s.dropWhile (fun x => decide (x = c))).reverse.dropWhile
    (fun x => decide (x = c))).reverse

/-- `line.lstrip().startswith("|")`: the table-line test. -/
def startsBar (ln : Str) : Bool :=
  startsL (str "|") (pyLstrip ln)

/-- The character-level fallback `raw[i:i+limit]` slicing of
`_chunk_markdown` (`range(0, len(raw), limit)`; a zero `limit` raises
`ValueError` in Python and yields `[]` here, unreachable under the claims'
positive limit). -/
def charChunks (limit : Nat) (s : Str) : List Str :=
  if hstop : limit = 0 ∨ s.isEmpty then []
  else s.take limit :: charChunks limit (s.drop limit)
termination_by s.length
decreasing_by
  rw [List.length_drop]
  have hne : s.length ≠ 0 := by
    intro h0
    exact hstop (Or.inr (by rwa [List.isEmpty_iff, ← List.length_eq_zero]))
  omega

/-- `daily_push_qwen._html_escape` (daily_push_qwen.py:104-107): the three
sequential `replace` passes amount to a per-character expansion. -/
def htmlEscape3 (s : Str) : Str :=
  s.flatMap (fun c =>
    if c = '&' then str "&amp;"
    else if c = '<' then str "&lt;"
    else if c = '>' then str "&gt;"
    else [c])

/-- Python `html.escape` (quote=True), used in `md_table_to_bullets`. -/
def pyHtmlEscape (s : Str) : Str :=
  s.flatMap (fun c =>
    if c = '&' then str "&amp;"
    else if c = '<' then str "&lt;"
    else if c = '>' then str "&gt;"
    else if c = Char.ofNat 34 then str "&quot;"
    else if c = Char.ofNat 39 then str "&#x27;"
    else [c])

/-- The `norm` helper of `md_table_to_bullets` (daily_push_qwen.py:118-119):
fold fullwidth parentheses, drop all whitespace, lowercase. -/
def tbl_norm (s : Str) : Str :=
  ((s.map (fun c => if c = '（' then '(' else if c = '）' then ')' else c)).filter
    (fun c => !isWs c)).map Char.toLower

/-- Data-row test of `md_table_to_bullets` (daily_push_qwen.py:141): a row
is a separator when every character of `r.strip("|").strip()` lies in
`"-:| "`. -/
def isSepRow (r : Str) : Bool :=
  (pyStrip (stripChar '|' r)).all
    (fun c => c = '-' || c = ':' || c = '|' || c = ' ')

/-- One output bullet of `md_table_to_bullets` (daily_push_qwen.py:143-161)
for a data row, given the header length and resolved column indices. -/
def table_row_bullet (headerLen idx_name idx_action idx_reason : Nat) (r : Str) : Str :=
  let cols0 := ((splitOnC '|' (stripChar '|' r)).map pyStrip)
  let cols := if cols0.length < headerLen then
      cols0 ++ List.replicate (headerLen - cols0.length) [] else cols0
  let name := if idx_name < cols.length then cols.getD idx_name [] else cols.getD 0 []
  let action0 := if idx_action < cols.length then cols.getD idx_action []
    else if 2 < cols.length then cols.getD 2 [] else []
  let reason := if idx_reason < cols.length then cols.getD idx_reason [] else []
  let action := if action0.isEmpty ||
      (decide (2 ≤ action0.length) && action0.all (fun c => decide (c = '*'))) then
      (if 2 < cols.length && !(pyStrip (cols.getD 2 [])).isEmpty then
        pyStrip (cols.getD 2 []) else action0)
    else action0
  let action_disp := if !action.isEmpty then
      str "<b>" ++ pyHtmlEscape action ++ str "</b>" else str "维持"
  let reason_disp := if !reason.isEmpty then pyHtmlEscape reason else str "（无）"
  str "• " ++ pyHtmlEscape name ++ str " — " ++ action_disp ++ str "｜理由：" ++ reason_disp

/-- Bullets for one collected table block (daily_push_qwen.py:132-161):
header parsing with normalised-name column search and positional
fallbacks, then one bullet per data row. -/
def table_to_bullets (tbl : List Str) : List Str :=
  match tbl with
  | [] => []
  | hd :: rest =>
    let header := (splitOnC '|' (stripChar '|' hd)).map pyStrip
    let h_norm := header.map tbl_norm
    let idx_name := (h_norm.findIdx? (fun v =>
      decide (v = str "持仓标的") || decide (v = str "标的") ||
      decide (v = str "资产类别") || decide (v = str "资产") ||
      decide (v = str "名称"))).getD 0
    let idx_action := (h_norm.findIdx? (fun v =>
      decide (v = str "建议操作") || decide (v = str "建议调整") ||
      decide (v = str "建议") || decide (v = str "操作"))).getD
      (if 2 < header.length then 2 else min 2 (header.length - 1))
    let idx_reason := (h_norm.findIdx? (fun v =>
      pyIn (str "理由") v || pyIn (str "说明") v)).getD
      (if 3 < header.length then 3 else min 3 (header.length - 1))
    let data_rows := rest.filter (fun r => !isSepRow r)
    data_rows.map (table_row_bullet header.length idx_name idx_action idx_reason)

/-- The while-loop of `md_table_to_bullets` over the nonblank lines
(daily_push_qwen.py:121-131): collect runs of table lines; runs shorter
than 2 lines produce nothing. -/
def bullets_go : List Str → List Str
  | [] => []
  | ln :: rest =>
    if startsBar ln then
      (if (ln :: rest.takeWhile startsBar).length < 2 then []
       else table_to_bullets (ln :: rest.takeWhile startsBar)) ++
        bullets_go (rest.dropWhile startsBar)
    else bullets_go rest
termination_by l => l.length
decreasing_by
  all_goals simp_wf
  all_goals first
    | exact Nat.lt_succ_of_le (List.dropWhile_sublist startsBar).length_le
    | exact Nat.lt_succ_self _

/-- `daily_push_qwen.md_table_to_bullets` (daily_push_qwen.py:110-163). -/
def md_table_to_bullets (md : Str) : List Str :=
  bullets_go ((pySplitlines md).filter (fun ln => !(pyStrip ln).isEmpty))

/-- The table-grouping loop of `md_to_telegram_html`
(daily_push_qwen.py:168-183): table runs become bullets (or, when the
bullet conversion yields nothing, the escaped raw lines); other lines are
HTML-escaped. -/
def html_lines_go : List Str → List Str
  | [] => []
  | ln :: rest =>
    if startsBar ln then
      (if (md_table_to_bullets
            (List.intercalate (str "\n") (ln :: rest.takeWhile startsBar))).isEmpty then
        (ln :: rest.takeWhile startsBar).map htmlEscape3
       else md_table_to_bullets
        (List.intercalate (str "\n") (ln :: rest.takeWhile startsBar))) ++
        html_lines_go (rest.dropWhile startsBar)
    else htmlEscape3 ln :: html_lines_go rest
termination_by l => l.length
decreasing_by
  all_goals simp_wf
  all_goals first
    | exact Nat.lt_succ_of_le (List.dropWhile_sublist startsBar).length_le
    | exact Nat.lt_succ_self _

/-- The heading pass `(?m)^(#{1,6})\s*([^\n]+)$ → <b>…</b>`
(daily_push_qwen.py:189-190), rendered per line (the corner where `\s*`
crosses a newline in Python is not modelled). -/
def header_line_sub (ln : Str) : Str :=
  let hs := ln.takeWhile (fun c => decide (c = '#'))
  if hs.isEmpty then ln
  else
    let rest := ln.drop (min 6 hs.length)
    if rest.isEmpty then ln
    else str "<b>" ++ pyStrip rest ++ str "</b>"

/-- Minimal-closing search for `\*\*(.+?)\*\*`: given the text after an
opening `**`, the length of the shortest non-empty newline-free inner text
followed by a closing `**`. -/
def bold_find_go : Str → Option Nat
  | [] => none
  | c :: rest =>
    if c = '\n' then none
    else if startsL (str "**") rest then some 1
    else
      match bold_find_go rest with
      | some n => some (n + 1)
      | none => none

/-- The bold pass `\*\*(.+?)\*\* → <b>…</b>` (daily_push_qwen.py:192),
left-to-right non-overlapping, non-greedy; `.` does not match a newline,
so the pass is line-local. -/
def boldSub : Str → Str
  | [] => []
  | c :: rest =>
    if startsL (str "**") (c :: rest) then
      match bold_find_go (rest.drop 1) with
      | some n =>
        str "<b>" ++ (rest.drop 1).take n ++ str "</b>" ++
          boldSub ((rest.drop 1).drop (n + 2))
      | none => c :: boldSub rest
    else c :: boldSub rest
termination_by s => s.length
decreasing_by
  all_goals simp_wf
  all_goals omega

/-- The quote pass `(?m)^&gt;\s* → '│ '` (daily_push_qwen.py:194), rendered
per line (`\s*` crossing a newline is not modelled). -/
def quote_line_sub (ln : Str) : Str :=
  if startsL (str "&gt;") ln then str "│ " ++ (ln.drop 4).dropWhile isWs else ln

/-- The list pass `(?m)^\s*-\s+ → '• '` (daily_push_qwen.py:196), rendered
per line (`\s` crossing a newline is not modelled). -/
def dash_line_sub (ln : Str) : Str :=
  match ln.dropWhile isWs with
  | '-' :: r2 =>
    if (r2.takeWhile isWs).isEmpty then ln
    else str "• " ++ r2.dropWhile isWs
  | _ => ln

/-- The blank-line compression `\n{3,} → '\n\n'` (daily_push_qwen.py:199). -/
def squeezeNl : Str → Str
  | [] => []
  | c :: rest =>
    if c = '\n' then
      (if 2 ≤ (rest.takeWhile (fun x => decide (x = '\n'))).length then str "\n\n"
       else '\n' :: rest.takeWhile (fun x => decide (x = '\n'))) ++
        squeezeNl (rest.dropWhile (fun x => decide (x = '\n')))
    else c :: squeezeNl rest
termination_by s => s.length
decreasing_by
  all_goals simp_wf
  all_goals first
    | exact Nat.lt_succ_of_le
        (List.dropWhile_sublist (fun x => decide (x = '\n'))).length_le
    | exact Nat.lt_succ_self _

/-- `daily_push_qwen.md_to_telegram_html` (daily_push_qwen.py:166-200):
table blocks become bullets, other lines are HTML-escaped, then the
heading, bold, quote and list substitutions are applied, blank runs are
compressed, and the result is stripped. -/
def md_to_telegram_html (md : Str) : Str :=
  let text := List.intercalate (str "\n") (html_lines_go (pySplitlines md))
  let text2 := List.intercalate (str "\n") ((splitOnC '\n' text).map
    (fun ln => dash_line_sub (quote_line_sub (boldSub (header_line_sub ln)))))
  pyStrip (squeezeNl text2)

/-- `daily_push_qwen._strip_html` (daily_push_qwen.py:280-282): drop every
`<...>` tag (non-greedy `</?[^>]+>`). -/
def strip_html : Str → Str
  | [] => []
  | c :: rest =>
    if c = '<' then
      let mid := rest.takeWhile (fun x => decide (x ≠ '>'))
      if mid.isEmpty ∨ rest.length ≤ mid.length then c :: strip_html rest
      else strip_html (rest.drop (mid.length + 1))
    else c :: strip_html rest
termination_by s => s.length
decreasing_by
  all_goals simp_wf
  all_goals omega

/-- Section-start test of `_split_markdown_sections`
(`(?m)(?=^\s*\d\)\s)`, daily_push_qwen.py:202-208), per line: optional
whitespace, one digit, `)`, then whitespace (or end of line, standing for
the following newline). -/
def isSecStart (ln : Str) : Bool :=
  match ln.dropWhile isWs with
  | d :: c1 :: rest =>
    d.isDigit && decide (c1 = ')') &&
      (match rest with
       | [] => true
       | c2 :: _ => isWs c2)
  | _ => false

/-- Grouping of lines into pieces split before each section-start line. -/
def sections_go (cur : List Str) : List Str → List (List Str)
  | [] => [cur]
  | ln :: rest =>
    if isSecStart ln then cur :: sections_go [ln] rest
    else sections_go (cur ++ [ln]) rest

/-- `daily_push_qwen._split_markdown_sections` (daily_push_qwen.py:202-208):
split before `1)`-style sub-headings, strip the pieces, drop empty ones,
and fall back to the whole stripped text. -/
def split_markdown_sections (md : Str) : List Str :=
  let parts := ((sections_go [] (splitOnC '\n' md)).map
    (fun g => pyStrip (List.intercalate (str "\n") g))).filter
    (fun p => !p.isEmpty)
  if parts.isEmpty then [pyStrip md] else parts

/-- `re.split(r'\n{2,}', sec)`: split a section into paragraphs at runs of
two or more newlines (daily_push_qwen.py:220). -/
def split_paras : Str → List Str
  | [] => [[]]
  | c :: rest =>
    if c = '\n' ∧ 1 ≤ (rest.takeWhile (fun x => decide (x = '\n'))).length then
      [] :: split_paras (rest.dropWhile (fun x => decide (x = '\n')))
    else
      match split_paras rest with
      | [] => [[c]]
      | hd :: tl => (c :: hd) :: tl
termination_by s => s.length
decreasing_by
  all_goals simp_wf
  all_goals first
    | exact Nat.lt_succ_of_le
        (List.dropWhile_sublist (fun x => decide (x = '\n'))).length_le
    | exact Nat.lt_succ_self _

/-- One step of the line accumulation inside `flush_buf`
(daily_push_qwen.py:230-245): note the guard compares the RAW accumulated
length plus the HTML length of the next line. -/
def flush_line_step (h : Str → Str) (limit : Nat) (st : List Str × Str) (ln : Str) :
    List Str × Str :=
  let lnHtml := h ln
  if st.2.length + (if st.2.isEmpty then 0 else 1) + lnHtml.length ≤ limit then
    (st.1, st.2 ++ (if st.2.isEmpty then [] else ['\n']) ++ ln)
  else if !st.2.isEmpty then (st.1 ++ [h st.2], ln)
  else (st.1 ++ charChunks limit (h ln), st.2)

/-- `flush_buf` of `_chunk_markdown` (daily_push_qwen.py:223-248): emits the
buffered markdown as one HTML chunk when it fits, otherwise re-splits it by
lines; always clears the buffer. -/
def chunk_flush (h : Str → Str) (limit : Nat) (acc : List Str × Str) : List Str × Str :=
  if acc.2.isEmpty then acc
  else if (h acc.2).length ≤ limit then (acc.1 ++ [h acc.2], [])
  else
    let fin := (pySplitlines acc.2).foldl (flush_line_step h limit) (acc.1, [])
    ((if fin.2.isEmpty then fin.1 else fin.1 ++ [h fin.2]), [])

/-- One step of the oversized-paragraph line splitting
(daily_push_qwen.py:257-271). -/
def long_para_step (h : Str → Str) (limit : Nat) (st : List Str × Str) (ln : Str) :
    List Str × Str :=
  let lnHtml := h ln
  if limit < lnHtml.length then (st.1 ++ charChunks limit lnHtml, st.2)
  else if (h (st.2 ++ (if st.2.isEmpty then [] else ['\n']) ++ ln)).length ≤ limit then
    (st.1, st.2 ++ (if st.2.isEmpty then [] else ['\n']) ++ ln)
  else (st.1 ++ [h st.2], ln)

/-- The oversized-paragraph handling of `_chunk_markdown`
(daily_push_qwen.py:256-272). -/
def chunk_long_para (h : Str → Str) (limit : Nat) (out : List Str) (para : Str) :
    List Str :=
  let fin := (pySplitlines para).foldl (long_para_step h limit) (out, [])
  if fin.2.isEmpty then fin.1 else fin.1 ++ [h fin.2]

/-- The per-paragraph step of `_chunk_markdown` (daily_push_qwen.py:250-272):
grow the buffer while its HTML rendering fits, else flush and line-split
the paragraph. -/
def chunk_para_step (h : Str → Str) (limit : Nat) (acc : List Str × Str) (para : Str) :
    List Str × Str :=
  let candidate := acc.2 ++ (if acc.2.isEmpty then [] else str "\n\n") ++ para
  if (h candidate).length ≤ limit then (acc.1, candidate)
  else
    (chunk_long_para h limit (chunk_flush h limit acc).1 para, [])

/-- One section of `_chunk_markdown` (daily_push_qwen.py:219-273): fold the
paragraphs with a fresh buffer and flush at the end. -/
def chunk_section (h : Str → Str) (limit : Nat) (out : List Str) (sec : Str) :
    List Str :=
  (chunk_flush h limit ((split_paras sec).foldl (chunk_para_step h limit) (out, []))).1

/-- `_chunk_markdown` with the markdown→HTML converter `h` abstracted; the
chunk-length bound holds for every converter. -/
def chunk_markdown_with (h : Str → Str) (md : Str) (limit : Nat) : List Str :=
  (split_markdown_sections md).foldl (chunk_section h limit) []

/-- `daily_push_qwen._chunk_markdown` (daily_push_qwen.py:211-277). -/
def chunk_markdown (md : Str) (limit : Nat) : List Str :=
  chunk_markdown_with md_to_telegram_html md limit

/-- Loop invariant of `_chunk_markdown`: every emitted chunk fits the
limit, and the pending buffer is empty or renders within the limit. -/
def chunkInv (h : Str → Str) (limit : Nat) (st : List Str × Str) : Prop :=
  (∀ c ∈ st.1, c.length ≤ limit) ∧ (st.2 = [] ∨ (h st.2).length ≤ limit)

-- ── daily_push_qwen.py : push channels ───────────────────────────────────────

/-- Outcome of one httpx call: a raised network error (`RequestError`), or
a received response. -/
inductive Fetch (α : Type) where
  | netErr (msg : Str)
  | got (r : α)

/-- An HTTP response as the push functions read it. -/
structure Resp where
  status : Nat
  text : Str

/-- A Telegram `sendMessage` response: HTTP status plus the `ok` flag and
`description` of its JSON body (responses are taken as well-formed JSON;
claim C7 is about HTTP and network errors). -/
structure TgResp where
  status : Nat
  okFlag : Bool
  desc : Str

/-- Raising semantics of an httpx call in the `Except` embedding. -/
def doFetch {α : Type} : Fetch α → Except HErr α
  | .netErr m => .error (.reqErr m)
  | .got r => .ok r

/-- `try/except` with an exception-class filter: exceptions the clause does
not name propagate to the caller. -/
def pyTry {α : Type} (m : Except HErr α) (pred : HErr → Bool)
    (handler : HErr → Except HErr α) : Except HErr α :=
  match m with
  | .ok a => .ok a
  | .error e => if pred e then handler e else .error e

/-- `r.raise_for_status()` on a response. -/
def respRaise (r : Resp) : Except HErr Unit := raiseStatus r.status

/-- `daily_push_qwen.push_serverchan` (daily_push_qwen.py:86-102): no key →
silently return; otherwise POST + `raise_for_status` guarded by
`except httpx.HTTPError`, which prints and returns.  The returned list
models the lines printed. -/
def push_serverchan (key : Str) (post : Fetch Resp) : Except HErr (List Str) :=
  if key.isEmpty then .ok []
  else
    pyTry
      (do
        let r ← doFetch post
        let _ ← respRaise r
        pure [])
      isHTTPError
      (fun _ => .ok [str "ServerChan push failed"])

/-- The network environment of one `push_telegram` run: the `getMe` probe,
the per-chunk `sendMessage` outcome, and the outcomes of the two fallback
resends (plain text, and 3000-char segments). -/
structure TgEnv where
  getMe : Fetch Resp
  send : Nat → Fetch TgResp
  sendPlain : Nat → Fetch Resp
  sendSeg : Nat → Nat → Fetch Resp

/-- The guarded body run for chunk `i` of `push_telegram`
(daily_push_qwen.py:304-335): on a non-200 or `ok=false` reply, an
`entities` error triggers a plain-text resend, a "message is too long"
error re-chunks the stripped body at 3000 and resends each segment, any
other error is just logged; the whole body is guarded by
`except httpx.RequestError`; `tg_seg_step` is one fallback segment POST of
the "message is too long" branch. -/
def tg_seg_step (env : TgEnv) (i : Nat) (_ : Unit) (p : Nat × Str) :
    Except HErr Unit := do
  let _ ← doFetch (env.sendSeg i p.1)
  pure ()

def tg_chunk_try (env : TgEnv) (i : Nat) (body : Str) : Except HErr (List Str) :=
  pyTry
    (do
      let r ← doFetch (env.send i)
      if r.status ≠ 200 ∨ r.okFlag = false then
        if pyIn (str "entities") r.desc then do
          let _ ← doFetch (env.sendPlain i)
          pure [str "TG send failed", str "entities fallback sent"]
        else if pyIn (str "message is too long") (pyLower r.desc) then do
          let _ ← (chunk_markdown (strip_html body) 3000).enum.foldlM
            (tg_seg_step env i) ()
          pure [str "TG send failed", str "too-long fallback sent"]
        else pure [str "TG send failed"]
      else pure [])
    isRequestError
    (fun _ => .ok [str "TG send network error"])

/-- `daily_push_qwen.push_telegram` (daily_push_qwen.py:285-335): missing
env → log and return; `getMe` network error → log and return early;
otherwise send every 3900-char chunk in order, handling each chunk's
failures inside its own try. -/
def push_telegram (token chatId : Str) (env : TgEnv) (md : Str) :
    Except HErr (List Str) :=
  if token.isEmpty ∨ chatId.isEmpty then .ok [str "TG env missing"]
  else
    match env.getMe with
    | .netErr _ => .ok [str "TG getMe network error"]
    | .got gm =>
      (chunk_markdown md 3900).enum.foldlM
        (fun (acc : List Str) p => do
          let l ← tg_chunk_try env p.1 p.2
          pure (acc ++ l))
        (if gm.status ≠ 200 then [str "getMe failed"] else [])

/-- `daily_push_qwen.push_bark` (daily_push_qwen.py:338-357): POST the
stripped body; on `httpx.HTTPError` fall back to the GET endpoint, itself
guarded by `except httpx.HTTPError`. -/
def bark_fallback_try (fallback : Fetch Resp) : Except HErr (List Str) :=
  pyTry
    (do
      let r2 ← doFetch fallback
      let _ ← respRaise r2
      pure [str "Bark push failed", str "Bark fallback ok: " ++ r2.text.take 120])
    isHTTPError
    (fun _ => .ok [str "Bark push failed", str "Bark fallback failed"])

def push_bark (md : Str) (post : Fetch Resp) (fallback : Fetch Resp) :
    Except HErr (List Str) :=
  let body := (strip_html (md_to_telegram_html md)).take 3500
  pyTry
    (do
      let r ← doFetch post
      let _ ← respRaise r
      pure [str "Bark push ok: " ++ r.text.take 120])
    isHTTPError
    (fun _ => bark_fallback_try fallback)

/-- The push phase of `daily_push_qwen.main` (daily_push_qwen.py:402-404):
the three channels are invoked in order. -/
def push_all (sckey token chatId answer : Str) (scPost : Fetch Resp)
    (tgEnv : TgEnv) (barkPost barkFallback : Fetch Resp) :
    Except HErr (List Str) := do
  let l1 ← push_serverchan sckey scPost
  let l2 ← push_telegram token chatId tgEnv answer
  let l3 ← push_bark answer barkPost barkFallback
  pure (l1 ++ l2 ++ l3)

-- ═════════════════════════════════════════════════════════════════════════════
-- Theorems
-- ═════════════════════════════════════════════════════════════════════════════

theorem startsL_iff (pat : Str) : ∀ hay : Str, startsL pat hay = true ↔ ∃ t, hay = pat ++ t := by
  induction pat with
  | nil => intro hay; simp [startsL]
  | cons a as ih =>
    intro hay
    cases hay with
    | nil => simp [startsL]
    | cons b bs =>
      simp only [startsL, Bool.and_eq_true, decide_eq_true_eq, ih bs]
      constructor
      · rintro ⟨rfl, t, rfl⟩; exact ⟨t, rfl⟩
      · rintro ⟨t, h⟩
        cases h
        exact ⟨rfl, t, rfl⟩

theorem pyIn_iff (pat : Str) : ∀ hay : Str, pyIn pat hay = true ↔ ∃ a b, hay = a ++ pat ++ b := by
  intro hay
  induction hay with
  | nil =>
    simp only [pyIn, startsL_iff]
    constructor
    · rintro ⟨t, h⟩
      exact ⟨[], t, by simpa using h⟩
    · rintro ⟨a, b, h⟩
      refine ⟨b, ?_⟩
      have ha : a = [] := by
        cases a with
        | nil => rfl
        | cons x xs => simp at h
      subst ha; simpa using h
  | cons c t ih =>
    simp only [pyIn, Bool.or_eq_true, startsL_iff, ih]
    constructor
    · rintro (⟨u, h⟩ | ⟨a, b, h⟩)
      · exact ⟨[], u, by simpa using h⟩
      · exact ⟨c :: a, b, by simp [h]⟩
    · rintro ⟨a, b, h⟩
      cases a with
      | nil => exact Or.inl ⟨b, by simpa using h⟩
      | cons x xs =>
        simp only [List.cons_append, List.cons.injEq] at h
        exact Or.inr ⟨xs, b, h.2⟩

/-- Claim C3, counterexample: with keyword `"ab"`, title `"a"`, summary `"b"`,
the keyword occurs in the plain concatenation `"ab"`, but
`hit_by_keywords` tests the space-joined blob `"a b "` and returns false, so
the claimed iff fails. -/
theorem hit_by_keywords_concat_counterexample :
    ¬ (hit_by_keywords (str "a") (str "b") [] [str "ab"] = true ↔
       spec_concat_hit (str "a") (str "b") [] [str "ab"] = true) := by
  decide

/-- Claim C3 (amended): `hit_by_keywords` returns true iff some keyword,
lowercased, occurs as a substring of the lowercased SPACE-SEPARATED
concatenation `title ++ " " ++ summary ++ " " ++ content`; and for a fixed
non-empty keyword list the items kept for `briefing.txt` are exactly the
subset of items with such a substring hit. -/
theorem hit_by_keywords_spec (title summary content : Str) (kws : List Str) :
    (hit_by_keywords title summary content kws = true ↔
      ∃ k ∈ kws, ∃ a b,
        pyLower (title ++ [' '] ++ summary ++ [' '] ++ content) = a ++ pyLower k ++ b)
    ∧ ∀ items : List PItem, kws ≠ [] →
        hit_items kws items =
          items.filter (fun it => hit_by_keywords it.title it.summary it.content kws) := by
  constructor
  · simp only [hit_by_keywords, List.any_eq_true, pyIn_iff]
  · intro items hk
    have hne : kws.isEmpty = false := by
      cases kws with
      | nil => exact absurd rfl hk
      | cons a l => rfl
    simp [hit_items, hne]

/-- Witness for `hit_by_keywords_spec` at a concrete input. -/
theorem hit_by_keywords_spec_witness :
    ([str "ab"] : List Str) ≠ [] ∧
      hit_items [str "ab"]
          [⟨str "d", str "k", str "s", str "a", str "b", [], str "u"⟩] =
        List.filter
          (fun it => hit_by_keywords it.title it.summary it.content [str "ab"])
          [⟨str "d", str "k", str "s", str "a", str "b", [], str "u"⟩] :=
  ⟨by decide,
    (hit_by_keywords_spec (str "a") (str "b") [] [str "ab"]).2
      [⟨str "d", str "k", str "s", str "a", str "b", [], str "u"⟩] (by decide)⟩

theorem filterMap_guard {α β : Type} (p : α → Bool) (f : α → β) (l : List α) :
    l.filterMap (fun a => if p a then none else some (f a)) =
      (l.filter (fun a => !p a)).map f := by
  induction l with
  | nil => rfl
  | cons x xs ih =>
    by_cases hx : p x = true <;>
      simp [List.filterMap_cons, List.filter_cons, hx, ih]

/-- Claim C6: `fetch_rss_source` never raises: its result always carries the
source key; the error component is `none` exactly on an HTTP 200 response;
any error comes with an empty item list; and on success the items are
exactly the entries within the `SPAN_DAYS` window (entries without a
parsable date count as `now`). -/
theorem fetch_rss_source_spec (fmt : Int → Str) (now cutoff : Int)
    (src : Source) (r : RssHttp) :
    (fetch_rss_source fmt now cutoff src r).1 = src.key
    ∧ ((fetch_rss_source fmt now cutoff src r).2.2 = none ↔
        ∃ entries, r = .resp 200 entries)
    ∧ ((fetch_rss_source fmt now cutoff src r).2.2 ≠ none →
        (fetch_rss_source fmt now cutoff src r).2.1 = [])
    ∧ (∀ entries, r = .resp 200 entries →
        (fetch_rss_source fmt now cutoff src r).2.1 =
          (entries.filter (fun e => !decide (e.dt.getD now < cutoff))).map
            (fun e => mk_rss_item fmt src.key src.name (e.dt.getD now) e)) := by
  cases r with
  | exn ename emsg =>
    refine ⟨rfl, ?_, fun _ => rfl, fun e2 h => by cases h⟩
    simp [fetch_rss_source]
  | resp status entries =>
    by_cases hst : status = 200
    · subst hst
      refine ⟨by simp [fetch_rss_source], by simp [fetch_rss_source], ?_, ?_⟩
      · intro h
        exact absurd (by simp [fetch_rss_source]) h
      · intro e2 h
        cases h
        simpa [fetch_rss_source] using
          filterMap_guard (fun e => decide (e.dt.getD now < cutoff))
            (fun e => mk_rss_item fmt src.key src.name (e.dt.getD now) e) entries
    · refine ⟨by simp [fetch_rss_source, hst], ?_,
        fun _ => by simp [fetch_rss_source, hst], ?_⟩
      · simp [fetch_rss_source, hst]
      · intro e2 h
        cases h
        exact absurd rfl hst

/-- Witness for `fetch_rss_source_spec`: on an exception outcome the items
are empty and the error is set. -/
theorem fetch_rss_source_spec_witness :
    (fetch_rss_source (fun _ => []) 0 0
        ⟨str "k", str "n", str "u", false, 0, none, none, false⟩
        (.exn (str "ReadTimeout") (str "timed out"))).2.2 ≠ none
    ∧ (fetch_rss_source (fun _ => []) 0 0
        ⟨str "k", str "n", str "u", false, 0, none, none, false⟩
        (.exn (str "ReadTimeout") (str "timed out"))).2.1 = [] :=
  ⟨by decide,
    (fetch_rss_source_spec (fun _ => []) 0 0
        ⟨str "k", str "n", str "u", false, 0, none, none, false⟩
        (.exn (str "ReadTimeout") (str "timed out"))).2.2.1 (by decide)⟩

theorem update_source_keep (now_iso : Str) (s : Source) (c : Nat) (st : Str) :
    (update_source now_iso s c st).keep = s.keep := by
  unfold update_source; split <;> rfl

theorem update_source_key (now_iso : Str) (s : Source) (c : Nat) (st : Str) :
    (update_source now_iso s c st).key = s.key := by
  unfold update_source; split <;> rfl

/-- Claim C2: per source and per run, on a successful fetch with at least one
item the health fields are reset (`consec_fail = 0`, `last_ok` stamped,
`last_error` cleared, `ok` set); on an HTTP error, an exception, or a
zero-item response, `consec_fail` grows by exactly 1 and `last_error`
records the failure status while `last_ok` and `ok` are untouched. -/
theorem source_health_update (fmt : Int → Str) (now cutoff : Int) (now_iso : Str)
    (s src : Source) (r : RssHttp) :
    ((∃ entries, r = .resp 200 entries) →
      0 < (fetch_rss_source fmt now cutoff src r).2.1.length →
      update_source now_iso s (fetch_rss_source fmt now cutoff src r).2.1.length
          (source_status (fetch_rss_source fmt now cutoff src r).2.1.length
            (fetch_rss_source fmt now cutoff src r).2.2) =
        { s with consec_fail := 0, last_ok := some now_iso,
                 last_error := none, ok := true })
    ∧ ((∀ entries, r ≠ .resp 200 entries) ∨
          (fetch_rss_source fmt now cutoff src r).2.1.length = 0 →
        (update_source now_iso s (fetch_rss_source fmt now cutoff src r).2.1.length
            (source_status (fetch_rss_source fmt now cutoff src r).2.1.length
              (fetch_rss_source fmt now cutoff src r).2.2)).consec_fail
            = s.consec_fail + 1
        ∧ (update_source now_iso s (fetch_rss_source fmt now cutoff src r).2.1.length
            (source_status (fetch_rss_source fmt now cutoff src r).2.1.length
              (fetch_rss_source fmt now cutoff src r).2.2)).last_error
            = some (source_status (fetch_rss_source fmt now cutoff src r).2.1.length
                (fetch_rss_source fmt now cutoff src r).2.2)
        ∧ (update_source now_iso s (fetch_rss_source fmt now cutoff src r).2.1.length
            (source_status (fetch_rss_source fmt now cutoff src r).2.1.length
              (fetch_rss_source fmt now cutoff src r).2.2)).last_ok = s.last_ok
        ∧ (update_source now_iso s (fetch_rss_source fmt now cutoff src r).2.1.length
            (source_status (fetch_rss_source fmt now cutoff src r).2.1.length
              (fetch_rss_source fmt now cutoff src r).2.2)).ok = s.ok) := by
  constructor
  · rintro ⟨entries, rfl⟩ hcnt
    have herr : (fetch_rss_source fmt now cutoff src (.resp 200 entries)).2.2 = none := by
      simp [fetch_rss_source]
    rw [herr]
    have hst : source_status
        (fetch_rss_source fmt now cutoff src (.resp 200 entries)).2.1.length none
        = str "OK" := by
      unfold source_status
      rw [if_pos ⟨rfl, hcnt⟩]
    rw [hst]
    unfold update_source
    rw [if_pos ⟨hcnt, rfl⟩]
  · intro h
    have hcnt : (fetch_rss_source fmt now cutoff src r).2.1.length = 0 := by
      rcases h with h | h
      · cases r with
        | exn a b => rfl
        | resp st entries =>
          by_cases hst : st = 200
          · exact absurd (hst ▸ rfl) (h entries)
          · simp [fetch_rss_source, hst]
      · exact h
    rw [hcnt]
    unfold update_source
    rw [if_neg (by rintro ⟨h1, _⟩; exact absurd h1 (by norm_num))]
    exact ⟨rfl, rfl, rfl, rfl⟩

/-- Witness for `source_health_update`: an HTTP 500 response increments the
failure counter of a source that previously had `consec_fail = 1`. -/
theorem source_health_update_witness :
    (update_source (str "T")
        ⟨str "k", str "n", str "u", false, 1, none, none, false⟩
        (fetch_rss_source (fun _ => []) 0 0
          ⟨str "k", str "n", str "u", false, 1, none, none, false⟩
          (.resp 500 [])).2.1.length
        (source_status
          (fetch_rss_source (fun _ => []) 0 0
            ⟨str "k", str "n", str "u", false, 1, none, none, false⟩
            (.resp 500 [])).2.1.length
          (fetch_rss_source (fun _ => []) 0 0
            ⟨str "k", str "n", str "u", false, 1, none, none, false⟩
            (.resp 500 [])).2.2)).consec_fail = 1 + 1 :=
  ((source_health_update (fun _ => []) 0 0 (str "T")
      ⟨str "k", str "n", str "u", false, 1, none, none, false⟩
      ⟨str "k", str "n", str "u", false, 1, none, none, false⟩
      (.resp 500 [])).2 (Or.inr (by decide))).1

/-- Claim C1: after this run's update of its failure counter, a source is
absent from the saved `sources.yml` list exactly when the updated counter
reached the threshold 3 AND `keep` is false; a source with `keep = true` is
always saved, no matter the counter. -/
theorem source_pruning (now_iso : Str) (sources : List Source) (env : FetchEnv)
    (s : Source) (hs : s ∈ sources) :
    ((run_update now_iso env s ∉ main_saved_sources now_iso sources env) ↔
      3 ≤ (run_update now_iso env s).consec_fail ∧ s.keep = false)
    ∧ (s.keep = true → run_update now_iso env s ∈ main_saved_sources now_iso sources env) := by
  have hperm : ∀ x : Source,
      x ∈ main_saved_sources now_iso sources env ↔
        x ∈ writeback_updated now_iso sources env := fun x =>
    (List.perm_insertionSort source_le (writeback_updated now_iso sources env)).mem_iff
  have hkeep : ∀ t : Source, (run_update now_iso env t).keep = t.keep := fun t =>
    update_source_keep _ _ _ _
  have hmem : ∀ x : Source,
      x ∈ writeback_updated now_iso sources env ↔
        ∃ t ∈ sources, run_update now_iso env t = x
          ∧ ¬(3 ≤ x.consec_fail ∧ x.keep = false) := by
    intro x
    unfold writeback_updated
    rw [List.mem_filterMap]
    constructor
    · rintro ⟨t, ht, hx⟩
      by_cases hc : 3 ≤ (run_update now_iso env t).consec_fail ∧ t.keep = false
      · rw [if_pos hc] at hx; cases hx
      · rw [if_neg hc] at hx
        cases hx
        exact ⟨t, ht, rfl, by rw [hkeep t]; exact hc⟩
    · rintro ⟨t, ht, rfl, hc⟩
      refine ⟨t, ht, ?_⟩
      rw [if_neg (by rw [hkeep t] at hc; exact hc)]
  constructor
  · constructor
    · intro habs
      by_contra hc
      exact habs ((hperm _).2 ((hmem _).2 ⟨s, hs, rfl, by
        rw [hkeep s]; exact fun h => hc ⟨h.1, h.2⟩⟩))
    · rintro ⟨h3, hkf⟩ hin
      rcases (hmem _).1 ((hperm _).1 hin) with ⟨t, _, _, hc⟩
      exact hc ⟨h3, by rw [hkeep s]; exact hkf⟩
  · intro hk
    refine (hperm _).2 ((hmem _).2 ⟨s, hs, rfl, ?_⟩)
    rw [hkeep s, hk]
    rintro ⟨_, h⟩
    cases h

/-- Witness for `source_pruning`: a `keep = false` source at `consec_fail = 2`
that fails again is dropped from the saved list, while a pinned source that
also fails is kept. -/
theorem source_pruning_witness :
    run_update (str "T") (fun _ => (0, some (str "HTTP 404")))
        ⟨str "a", str "n", str "u", false, 2, none, none, false⟩ ∉
      main_saved_sources (str "T")
        [⟨str "a", str "n", str "u", false, 2, none, none, false⟩,
         ⟨str "b", str "n", str "u", true, 7, none, none, false⟩]
        (fun _ => (0, some (str "HTTP 404"))) ∧
    run_update (str "T") (fun _ => (0, some (str "HTTP 404")))
        ⟨str "b", str "n", str "u", true, 7, none, none, false⟩ ∈
      main_saved_sources (str "T")
        [⟨str "a", str "n", str "u", false, 2, none, none, false⟩,
         ⟨str "b", str "n", str "u", true, 7, none, none, false⟩]
        (fun _ => (0, some (str "HTTP 404"))) :=
  ⟨(source_pruning (str "T")
      [⟨str "a", str "n", str "u", false, 2, none, none, false⟩,
       ⟨str "b", str "n", str "u", true, 7, none, none, false⟩]
      (fun _ => (0, some (str "HTTP 404")))
      ⟨str "a", str "n", str "u", false, 2, none, none, false⟩
      (by decide)).1.mpr (by decide),
   (source_pruning (str "T")
      [⟨str "a", str "n", str "u", false, 2, none, none, false⟩,
       ⟨str "b", str "n", str "u", true, 7, none, none, false⟩]
      (fun _ => (0, some (str "HTTP 404")))
      ⟨str "b", str "n", str "u", true, 7, none, none, false⟩
      (by decide)).2 rfl⟩

theorem any_key_iff {α : Type} (m : List (Str × α)) (k : Str) :
    m.any (fun p => decide (p.1 = k)) = true ↔ k ∈ m.map Prod.fst := by
  rw [List.any_eq_true]
  constructor
  · rintro ⟨p, hp, hd⟩
    exact List.mem_map.2 ⟨p, hp, of_decide_eq_true hd⟩
  · intro h
    rcases List.mem_map.1 h with ⟨p, hp, hk⟩
    exact ⟨p, hp, decide_eq_true hk⟩

theorem dictGet_append {α : Type} (m l : List (Str × α)) (k : Str) :
    dictGet k (m ++ l) = (dictGet k m).or (dictGet k l) := by
  induction m with
  | nil => rfl
  | cons p t ih =>
    by_cases hp : p.1 = k
    · simp [dictGet, hp, Option.or]
    · simp [dictGet, hp, ih]

theorem dictGet_none_of_not_mem {α : Type} (m : List (Str × α)) (k : Str)
    (h : k ∉ m.map Prod.fst) : dictGet k m = none := by
  induction m with
  | nil => rfl
  | cons p t ih =>
    simp only [List.map_cons, List.mem_cons, not_or] at h
    have hp : ¬ p.1 = k := fun h' => h.1 h'.symm
    simp [dictGet, hp, ih h.2]

theorem dictGet_cons {α : Type} (q : Str × α) (t : List (Str × α)) (k : Str) :
    dictGet k (q :: t) = if q.1 = k then some q.2 else dictGet k t := rfl

theorem dictGet_map_replace_ne {α : Type} (t : List (Str × α)) (k k' : Str) (v : α)
    (hk : k' ≠ k) :
    dictGet k' (t.map (fun p => if p.1 = k then (k, v) else p)) = dictGet k' t := by
  induction t with
  | nil => rfl
  | cons p t ih =>
    rw [List.map_cons]
    by_cases hp : p.1 = k
    · rw [if_pos hp, dictGet_cons, dictGet_cons,
        if_neg (show ¬ k = k' from fun h => hk h.symm),
        if_neg (show ¬ p.1 = k' from fun h => hk (hp.symm.trans h).symm)]
      exact ih
    · rw [if_neg hp, dictGet_cons, dictGet_cons]
      by_cases hpk : p.1 = k'
      · rw [if_pos hpk, if_pos hpk]
      · rw [if_neg hpk, if_neg hpk]
        exact ih

theorem dictGet_map_replace_self {α : Type} (t : List (Str × α)) (k : Str) (v : α)
    (hmem : k ∈ t.map Prod.fst) :
    dictGet k (t.map (fun p => if p.1 = k then (k, v) else p)) = some v := by
  induction t with
  | nil => simp at hmem
  | cons p t ih =>
    rw [List.map_cons]
    by_cases hp : p.1 = k
    · rw [if_pos hp, dictGet_cons, if_pos rfl]
    · rw [if_neg hp, dictGet_cons, if_neg hp]
      refine ih ?_
      rw [List.map_cons, List.mem_cons] at hmem
      rcases hmem with h | h
      · exact absurd h.symm hp
      · exact h

theorem dictUpsert_get {α : Type} (m : List (Str × α)) (k : Str) (v : α) (k' : Str) :
    dictGet k' (dictUpsert m k v) = if k' = k then some v else dictGet k' m := by
  unfold dictUpsert
  by_cases hany : m.any (fun p => decide (p.1 = k)) = true
  · rw [if_pos hany]
    by_cases hk : k' = k
    · subst hk
      rw [if_pos rfl]
      exact dictGet_map_replace_self m k' v ((any_key_iff m k').1 hany)
    · rw [if_neg hk]
      exact dictGet_map_replace_ne m k k' v hk
  · rw [if_neg hany, dictGet_append]
    by_cases hk : k' = k
    · subst hk
      rw [dictGet_none_of_not_mem m k' (fun h => hany ((any_key_iff m k').2 h))]
      simp [dictGet, Option.or]
    · rw [if_neg hk]
      have hsingle : dictGet k' [(k, v)] = none := by
        rw [dictGet_cons, if_neg (show ¬ k = k' from fun h => hk h.symm)]
        rfl
      rw [hsingle, Option.or_none]

theorem dictUpsert_keys {α : Type} (m : List (Str × α)) (k : Str) (v : α) :
    (dictUpsert m k v).map Prod.fst =
      if k ∈ m.map Prod.fst then m.map Prod.fst else m.map Prod.fst ++ [k] := by
  unfold dictUpsert
  by_cases hany : m.any (fun p => decide (p.1 = k)) = true
  · rw [if_pos hany, if_pos ((any_key_iff m k).1 hany)]
    rw [List.map_map]
    apply List.map_congr_left
    intro p _
    by_cases hp : p.1 = k <;> simp [hp]
  · rw [if_neg hany, if_neg (fun h => hany ((any_key_iff m k).2 h))]
    simp

theorem dictUpsert_keys_nodup {α : Type} (m : List (Str × α)) (k : Str) (v : α)
    (h : (m.map Prod.fst).Nodup) : ((dictUpsert m k v).map Prod.fst).Nodup := by
  rw [dictUpsert_keys]
  by_cases hk : k ∈ m.map Prod.fst
  · rwa [if_pos hk]
  · rw [if_neg hk]
    refine List.nodup_append.2 ⟨h, List.nodup_singleton _, ?_⟩
    intro a ha hb
    rw [List.mem_singleton] at hb
    subst hb
    exact hk ha

theorem dictUpsert_keymatch {α : Type} (key : α → Str) (m : List (Str × α)) (v : α)
    (h : ∀ p ∈ m, key p.2 = p.1) :
    ∀ p ∈ dictUpsert m (key v) v, key p.2 = p.1 := by
  intro p hp
  unfold dictUpsert at hp
  by_cases hany : m.any (fun q => decide (q.1 = key v)) = true
  · rw [if_pos hany] at hp
    rcases List.mem_map.1 hp with ⟨q, hq, rfl⟩
    by_cases hqk : q.1 = key v <;> simp [hqk, h q hq]
  · rw [if_neg hany] at hp
    rcases List.mem_append.1 hp with hp' | hp'
    · exact h p hp'
    · simp only [List.mem_singleton] at hp'
      subst hp'
      rfl

theorem foldUpsert_lookup {α : Type} (key : α → Str) :
    ∀ (s : List α) (m : List (Str × α)) (k : Str),
      dictGet k (s.foldl (fun m it => dictUpsert m (key it) it) m) =
        ((s.filter (fun it => decide (key it = k))).getLast?).or (dictGet k m) := by
  intro s
  induction s with
  | nil => intro m k; rfl
  | cons h t ih =>
    intro m k
    rw [List.foldl_cons, ih, dictUpsert_get, List.filter_cons]
    by_cases hk : key h = k
    · rw [if_pos (decide_eq_true hk), if_pos hk.symm, List.getLast?_cons]
      cases hlast : (t.filter (fun it => decide (key it = k))).getLast? <;>
        simp [hlast, Option.or]
    · rw [if_neg (show ¬ decide (key h = k) = true by simpa using hk),
        if_neg (show ¬ k = key h from fun h' => hk h'.symm)]

theorem foldUpsert_inv {α : Type} (key : α → Str) :
    ∀ (s : List α) (m : List (Str × α)),
      (m.map Prod.fst).Nodup → (∀ p ∈ m, key p.2 = p.1) →
      ((s.foldl (fun m it => dictUpsert m (key it) it) m).map Prod.fst).Nodup ∧
        ∀ p ∈ s.foldl (fun m it => dictUpsert m (key it) it) m, key p.2 = p.1 := by
  intro s
  induction s with
  | nil => intro m h1 h2; exact ⟨h1, h2⟩
  | cons h t ih =>
    intro m h1 h2
    exact ih (dictUpsert m (key h) h)
      (dictUpsert_keys_nodup m (key h) h h1)
      (dictUpsert_keymatch key m h h2)

theorem news_dict_eq_foldUpsert (fp : Str → Str)
    (results : List (Except Str (List NewsItem))) :
    news_dict fp results =
      (ok_items results).foldl (fun m it => dictUpsert m (fp it.url) it) [] := by
  suffices hgen : ∀ (rs : List (Except Str (List NewsItem))) (m : List (Str × NewsItem)),
      rs.foldl (fun m res =>
        match res with
        | .error _ => m
        | .ok items => items.foldl (fun m it => dictUpsert m (fp it.url) it) m) m =
      (ok_items rs).foldl (fun m it => dictUpsert m (fp it.url) it) m by
    exact hgen results []
  intro rs
  induction rs with
  | nil => intro m; rfl
  | cons r t ih =>
    intro m
    cases r with
    | error e => simpa [ok_items, List.filterMap_cons] using ih m
    | ok items =>
      simp only [List.foldl_cons, ok_items, List.filterMap_cons, List.flatten_cons,
        List.foldl_append]
      exact ih _

/-- Claim C8: the list returned by `gather_all` holds at most one item per
fingerprint, hence at most one item per URL; and in the dedup dict each
fingerprint maps to the LAST item of the processed stream bearing it
(later items replace earlier ones). -/
theorem gather_all_dedup (fp : Str → Str) (results : List (Except Str (List NewsItem)))
    (holdings : List FHolding) (max_items : Nat) :
    (gather_all fp results holdings max_items).Pairwise (fun a b => fp a.url ≠ fp b.url)
    ∧ (gather_all fp results holdings max_items).Pairwise (fun a b => a.url ≠ b.url)
    ∧ ∀ k, dictGet k (news_dict fp results) =
        ((ok_items results).filter (fun it => decide (fp it.url = k))).getLast? := by
  have hinv := foldUpsert_inv (fun it : NewsItem => fp it.url) (ok_items results) []
    (by simp) (by simp)
  rw [← news_dict_eq_foldUpsert] at hinv
  have hpair : (news_dict fp results).Pairwise (fun p q => p.1 ≠ q.1) :=
    List.pairwise_map.1 hinv.1
  have hpair2 : ((news_dict fp results).map Prod.snd).Pairwise
      (fun a b => fp a.url ≠ fp b.url) := by
    rw [List.pairwise_map]
    refine hpair.imp_of_mem ?_
    intro p q hp hq hne heq
    exact hne ((hinv.2 p hp).symm.trans (heq.trans (hinv.2 q hq)))
  have hsorted : (List.insertionSort
      (fun a b => relevance b holdings ≤ relevance a holdings)
      ((news_dict fp results).map Prod.snd)).Pairwise
        (fun a b => fp a.url ≠ fp b.url) :=
    ((List.perm_insertionSort _ _).pairwise_iff
      (fun h heq => h heq.symm)).2 hpair2
  have htake : (gather_all fp results holdings max_items).Pairwise
      (fun a b => fp a.url ≠ fp b.url) :=
    hsorted.sublist (List.take_sublist _ _)
  refine ⟨htake, htake.imp ?_, ?_⟩
  · intro a b h heq
    exact h (heq ▸ rfl)
  · intro k
    rw [news_dict_eq_foldUpsert, foldUpsert_lookup]
    simp [dictGet, Option.or_none]

theorem dictGet_of_mem_nodup {α : Type} (m : List (Str × α)) (p : Str × α)
    (hm : p ∈ m) (hnd : (m.map Prod.fst).Nodup) : dictGet p.1 m = some p.2 := by
  induction m with
  | nil => simp at hm
  | cons q t ih =>
    rw [List.map_cons, List.nodup_cons] at hnd
    rcases List.mem_cons.1 hm with rfl | hm'
    · rw [dictGet_cons, if_pos rfl]
    · rw [dictGet_cons]
      by_cases hq : q.1 = p.1
      · exact absurd (show q.1 ∈ t.map Prod.fst by
          rw [hq]; exact List.mem_map.2 ⟨p, hm', rfl⟩) hnd.1
      · rw [if_neg hq]
        exact ih hm' hnd.2

theorem dict_by_symbol_get (l : List Holding) (k : Str) :
    dictGet k (dict_by_symbol l) =
      (l.filter (fun h => decide (h.symbol = k))).getLast? := by
  unfold dict_by_symbol
  rw [foldUpsert_lookup Holding.symbol l [] k]
  rw [show dictGet k ([] : List (Str × Holding)) = none from rfl, Option.or_none]

theorem dict_by_symbol_inv (l : List Holding) :
    ((dict_by_symbol l).map Prod.fst).Nodup ∧
      ∀ p ∈ dict_by_symbol l, p.2.symbol = p.1 := by
  unfold dict_by_symbol
  exact foldUpsert_inv Holding.symbol l [] (by simp) (by simp)

theorem dict_by_symbol_eq (l : List Holding) (hnd : (l.map Holding.symbol).Nodup) :
    dict_by_symbol l = l.map (fun h => (h.symbol, h)) := by
  suffices haux : ∀ (l : List Holding) (m : List (Str × Holding)),
      (m.map Prod.fst ++ l.map Holding.symbol).Nodup →
      l.foldl (fun m i => dictUpsert m i.symbol i) m =
        m ++ l.map (fun h => (h.symbol, h)) by
    have := haux l [] (by simpa using hnd)
    simpa [dict_by_symbol] using this
  intro l
  induction l with
  | nil => intro m _; simp
  | cons h t ih =>
    intro m hnd2
    have hkeys : h.symbol ∉ m.map Prod.fst := by
      rw [List.nodup_append] at hnd2
      intro hmem
      exact hnd2.2.2 hmem (by simp)
    have hany : ¬ m.any (fun p => decide (p.1 = h.symbol)) = true :=
      fun ha => hkeys ((any_key_iff m h.symbol).1 ha)
    have hstep : dictUpsert m h.symbol h = m ++ [(h.symbol, h)] := by
      unfold dictUpsert; rw [if_neg hany]
    have hnd3 : ((m ++ [(h.symbol, h)]).map Prod.fst ++ t.map Holding.symbol).Nodup := by
      rw [List.map_append, List.append_assoc]
      simpa using hnd2
    rw [List.foldl_cons, hstep, ih (m ++ [(h.symbol, h)]) hnd3, List.map_cons,
      List.append_assoc, List.singleton_append]

theorem countP_sym_zero (l : List Holding) (s : Str) (h : s ∉ l.map Holding.symbol) :
    l.countP (fun x => decide (x.symbol = s)) = 0 :=
  List.countP_eq_zero.2 fun a ha hd =>
    h (List.mem_map.2 ⟨a, ha, of_decide_eq_true hd⟩)

theorem countP_sym_one (l : List Holding) (s : Str)
    (hnd : (l.map Holding.symbol).Nodup) (hmem : s ∈ l.map Holding.symbol) :
    l.countP (fun x => decide (x.symbol = s)) = 1 := by
  induction l with
  | nil => simp at hmem
  | cons h t ih =>
    rw [List.map_cons, List.nodup_cons] at hnd
    rw [List.map_cons, List.mem_cons] at hmem
    rw [List.countP_cons]
    by_cases hs : h.symbol = s
    · rw [countP_sym_zero t s (hs ▸ hnd.1), if_pos (decide_eq_true hs)]
    · rcases hmem with h1 | h1
      · exact absurd h1.symm hs
      · rw [ih hnd.2 h1, if_neg (by simpa using hs)]

theorem filter_sym_of_nodup (l : List Holding) (hn : Holding)
    (hnd : (l.map Holding.symbol).Nodup) (hmem : hn ∈ l) :
    l.filter (fun x => decide (x.symbol = hn.symbol)) = [hn] := by
  induction l with
  | nil => simp at hmem
  | cons h t ih =>
    rw [List.map_cons, List.nodup_cons] at hnd
    rcases List.mem_cons.1 hmem with heq | hm'
    · subst heq
      have hnil : t.filter (fun x => decide (x.symbol = hn.symbol)) = [] :=
        List.filter_eq_nil_iff.2 fun a ha hd =>
          hnd.1 (of_decide_eq_true hd ▸ List.mem_map.2 ⟨a, ha, rfl⟩)
      rw [List.filter_cons, if_pos (by simp), hnil]
    · by_cases hs : h.symbol = hn.symbol
      · exact absurd (show h.symbol ∈ t.map Holding.symbol by
          rw [hs]; exact List.mem_map.2 ⟨hn, hm', rfl⟩) hnd.1
      · rw [List.filter_cons, if_neg (by simpa using hs)]
        exact ih hnd.2 hm'

theorem countP_filterMap_pointwise {α β : Type} (f : α → Option β) (p : β → Bool)
    (q : α → Bool) (l : List α)
    (h : ∀ a ∈ l, ((f a).map p).getD false = q a) :
    (l.filterMap f).countP p = l.countP q := by
  induction l with
  | nil => rfl
  | cons a t ih =>
    have ht := ih fun x hx => h x (List.mem_cons_of_mem a hx)
    have ha := h a (List.mem_cons_self a t)
    cases hfa : f a with
    | none =>
      have ha' : q a = false := by rw [← ha, hfa]; rfl
      simp only [List.filterMap_cons, hfa, List.countP_cons, ha', ht]
      simp
    | some b =>
      have ha' : q a = p b := by rw [← ha, hfa]; rfl
      simp only [List.filterMap_cons, hfa, List.countP_cons, ha', ht]

/-- Claim C10: with distinct symbols in each holdings list, `compare` emits
exactly one REMOVE row per old-only symbol, exactly one ADD row per
new-only symbol, exactly one UPDATE row per common symbol whose weights
differ by more than `1e-6`; `compare(l, l)` is empty, so `append_log`
leaves `holdings_log.csv` untouched on unchanged holdings. -/
theorem compare_spec (today : Str) (old new : List Holding)
    (hOld : (old.map Holding.symbol).Nodup) (hNew : (new.map Holding.symbol).Nodup) :
    (∀ s : Str,
      (compare today old new).countP
          (fun r => decide (r.typ = ChangeType.REMOVE ∧ r.symbol = s)) =
        if s ∈ old.map Holding.symbol ∧ s ∉ new.map Holding.symbol then 1 else 0)
    ∧ (∀ s : Str,
      (compare today old new).countP
          (fun r => decide (r.typ = ChangeType.ADD ∧ r.symbol = s)) =
        if s ∈ new.map Holding.symbol ∧ s ∉ old.map Holding.symbol then 1 else 0)
    ∧ (∀ ho hn : Holding, ho ∈ old → hn ∈ new → ho.symbol = hn.symbol →
      (compare today old new).countP
          (fun r => decide (r.typ = ChangeType.UPDATE ∧ r.symbol = ho.symbol)) =
        if 1 / 1000000 < |ho.weight - hn.weight| then 1 else 0)
    ∧ (∀ l : List Holding, compare today l l = [])
    ∧ (∀ (file : Option (List ChangeRow)) (l : List Holding),
        append_log file (compare today l l) = file) := by
  have hself : ∀ l : List Holding, compare today l l = [] := by
    intro l
    have hinv := dict_by_symbol_inv l
    unfold compare
    rw [List.append_eq_nil]
    constructor
    · refine List.filterMap_eq_nil_iff.2 fun p hp => ?_
      rw [dictGet_of_mem_nodup (dict_by_symbol l) p hp hinv.1]
      rfl
    · refine List.filterMap_eq_nil_iff.2 fun p hp => ?_
      rw [dictGet_of_mem_nodup (dict_by_symbol l) p hp hinv.1]
      have hne : ¬ (1 / 1000000 : ℚ) < |p.2.weight - p.2.weight| := by
        rw [sub_self, abs_zero]
        norm_num
      simp [hne]
  have hrw : compare today old new =
      old.filterMap (fun h =>
        if (dictGet h.symbol (new.map (fun x => (x.symbol, x)))).isSome then none
        else some ⟨today, .REMOVE, h.symbol, h.name, ratStr h.weight⟩)
      ++ new.filterMap (fun h =>
        match dictGet h.symbol (old.map (fun x => (x.symbol, x))) with
        | none => some ⟨today, .ADD, h.symbol, h.name, ratStr h.weight⟩
        | some oldIt =>
          if 1 / 1000000 < |oldIt.weight - h.weight| then
            some ⟨today, .UPDATE, h.symbol, h.name,
              ratStr oldIt.weight ++ str "->" ++ ratStr h.weight⟩
          else none) := by
    unfold compare
    dsimp only
    rw [dict_by_symbol_eq old hOld, dict_by_symbol_eq new hNew,
      List.filterMap_map, List.filterMap_map]
    rfl
  have hgetNew : ∀ s, dictGet s (new.map (fun x => (x.symbol, x))) =
      (new.filter (fun h => decide (h.symbol = s))).getLast? := by
    intro s
    rw [← dict_by_symbol_eq new hNew, dict_by_symbol_get]
  have hgetOld : ∀ s, dictGet s (old.map (fun x => (x.symbol, x))) =
      (old.filter (fun h => decide (h.symbol = s))).getLast? := by
    intro s
    rw [← dict_by_symbol_eq old hOld, dict_by_symbol_get]
  have hnone : ∀ (l : List Holding) (s : Str), s ∉ l.map Holding.symbol →
      (l.filter (fun h => decide (h.symbol = s))).getLast? = none := by
    intro l s hs
    have hfil : l.filter (fun h => decide (h.symbol = s)) = [] :=
      List.filter_eq_nil_iff.2 fun a ha hd =>
        hs (of_decide_eq_true hd ▸ List.mem_map.2 ⟨a, ha, rfl⟩)
    rw [hfil]
    rfl
  have hsome : ∀ (l : List Holding) (s : Str), s ∈ l.map Holding.symbol →
      ((l.filter (fun h => decide (h.symbol = s))).getLast?).isSome = true := by
    intro l s hs
    rcases List.mem_map.1 hs with ⟨a, ha, rfl⟩
    exact List.getLast?_isSome.2
      (List.ne_nil_of_mem (List.mem_filter.2 ⟨ha, by simp⟩))
  refine ⟨?_, ?_, ?_, hself, fun file l => by
    unfold append_log
    rw [if_pos (hself l)]⟩
  · -- REMOVE rows
    intro s
    rw [hrw, List.countP_append]
    have hpart2 : (new.filterMap (fun h =>
        match dictGet h.symbol (old.map (fun x => (x.symbol, x))) with
        | none => some (⟨today, .ADD, h.symbol, h.name, ratStr h.weight⟩ : ChangeRow)
        | some oldIt =>
          if 1 / 1000000 < |oldIt.weight - h.weight| then
            some (⟨today, .UPDATE, h.symbol, h.name,
              ratStr oldIt.weight ++ str "->" ++ ratStr h.weight⟩ : ChangeRow)
          else none)).countP
        (fun r => decide (r.typ = ChangeType.REMOVE ∧ r.symbol = s)) = 0 := by
      refine List.countP_eq_zero.2 fun r hr => ?_
      rcases List.mem_filterMap.1 hr with ⟨a, _, hsome'⟩
      revert hsome'
      cases dictGet a.symbol (old.map (fun x => (x.symbol, x))) with
      | none =>
        intro hsome'
        have hsome2 : some (⟨today, .ADD, a.symbol, a.name, ratStr a.weight⟩ : ChangeRow)
            = some r := hsome'
        cases hsome2
        simp
      | some oldIt =>
        intro hsome'
        have hsome2 : (if 1 / 1000000 < |oldIt.weight - a.weight| then
            some (⟨today, .UPDATE, a.symbol, a.name,
              ratStr oldIt.weight ++ str "->" ++ ratStr a.weight⟩ : ChangeRow)
          else none) = some r := hsome'
        by_cases hc : (1 : ℚ) / 1000000 < |oldIt.weight - a.weight|
        · rw [if_pos hc] at hsome2
          cases hsome2
          simp
        · rw [if_neg hc] at hsome2
          cases hsome2
    rw [hpart2, Nat.add_zero]
    by_cases hsn : s ∈ new.map Holding.symbol
    · rw [if_neg (fun h => h.2 hsn)]
      refine Eq.trans
        (countP_filterMap_pointwise _ _ (fun _ => false) old ?_)
        (by simp : List.countP (fun _ => false) old = 0)
      intro a _
      by_cases has : a.symbol = s
      · rw [has, hgetNew s, if_pos (hsome new s hsn)]
        rfl
      · by_cases hg : (dictGet a.symbol (new.map (fun x => (x.symbol, x)))).isSome = true
        · rw [if_pos hg]
          rfl
        · rw [if_neg hg]
          simp [has]
    · refine Eq.trans
        (countP_filterMap_pointwise _ _ (fun a => decide (a.symbol = s)) old ?_) ?_
      · intro a _
        by_cases has : a.symbol = s
        · have hdn : dictGet a.symbol (new.map (fun x => (x.symbol, x))) = none := by
            rw [has, hgetNew s, hnone new s hsn]
          rw [hdn, if_neg (show ¬ (none : Option Holding).isSome = true by simp)]
          simp [has]
        · by_cases hg : (dictGet a.symbol (new.map (fun x => (x.symbol, x)))).isSome = true
          · rw [if_pos hg]
            simp [has]
          · rw [if_neg hg]
            simp [has]
      · by_cases hso : s ∈ old.map Holding.symbol
        · rw [countP_sym_one old s hOld hso, if_pos ⟨hso, hsn⟩]
        · rw [countP_sym_zero old s hso, if_neg (fun h => hso h.1)]
  · -- ADD rows
    intro s
    rw [hrw, List.countP_append]
    have hpart1 : (old.filterMap (fun h =>
        if (dictGet h.symbol (new.map (fun x => (x.symbol, x)))).isSome then none
        else some (⟨today, .REMOVE, h.symbol, h.name, ratStr h.weight⟩ : ChangeRow))).countP
        (fun r => decide (r.typ = ChangeType.ADD ∧ r.symbol = s)) = 0 := by
      refine List.countP_eq_zero.2 fun r hr => ?_
      rcases List.mem_filterMap.1 hr with ⟨a, _, hsome'⟩
      revert hsome'
      by_cases hg : (dictGet a.symbol (new.map (fun x => (x.symbol, x)))).isSome = true
      · rw [if_pos hg]
        intro hsome'
        cases hsome'
      · rw [if_neg hg]
        intro hsome'
        cases hsome'
        simp
    rw [hpart1, Nat.zero_add]
    by_cases hso : s ∈ old.map Holding.symbol
    · rw [if_neg (fun h => h.2 hso)]
      refine Eq.trans
        (countP_filterMap_pointwise _ _ (fun _ => false) new ?_)
        (by simp : List.countP (fun _ => false) new = 0)
      intro a _
      by_cases has : a.symbol = s
      · have hs2 : (dictGet s (old.map (fun x => (x.symbol, x)))).isSome = true := by
          rw [hgetOld s]
          exact hsome old s hso
        obtain ⟨oi, hoi⟩ := Option.isSome_iff_exists.1 hs2
        rw [has, hoi]
        by_cases hc : (1 : ℚ) / 1000000 < |oi.weight - a.weight|
        · simp [hc, -one_div]
        · simp [hc, -one_div]
      · cases hga : dictGet a.symbol (old.map (fun x => (x.symbol, x))) with
        | none => simp [has]
        | some oi =>
          by_cases hc : (1 : ℚ) / 1000000 < |oi.weight - a.weight|
          · simp [hc, has, -one_div]
          · simp [hc, -one_div]
    · refine Eq.trans
        (countP_filterMap_pointwise _ _ (fun a => decide (a.symbol = s)) new ?_) ?_
      · intro a _
        by_cases has : a.symbol = s
        · have hdn : dictGet a.symbol (old.map (fun x => (x.symbol, x))) = none := by
            rw [has, hgetOld s, hnone old s hso]
          rw [hdn]
          simp [has]
        · cases hga : dictGet a.symbol (old.map (fun x => (x.symbol, x))) with
          | none => simp [has]
          | some oi =>
            by_cases hc : (1 : ℚ) / 1000000 < |oi.weight - a.weight|
            · simp [hc, has, -one_div]
            · simp [hc, has, -one_div]
      · by_cases hsn2 : s ∈ new.map Holding.symbol
        · rw [countP_sym_one new s hNew hsn2, if_pos ⟨hsn2, hso⟩]
        · rw [countP_sym_zero new s hsn2, if_neg (fun h => hsn2 h.1)]
  · -- UPDATE rows
    intro ho hn homem hnmem hsym
    rw [hrw, List.countP_append]
    have hpart1 : (old.filterMap (fun h =>
        if (dictGet h.symbol (new.map (fun x => (x.symbol, x)))).isSome then none
        else some (⟨today, .REMOVE, h.symbol, h.name, ratStr h.weight⟩ : ChangeRow))).countP
        (fun r => decide (r.typ = ChangeType.UPDATE ∧ r.symbol = ho.symbol)) = 0 := by
      refine List.countP_eq_zero.2 fun r hr => ?_
      rcases List.mem_filterMap.1 hr with ⟨a, _, hsome'⟩
      revert hsome'
      by_cases hg : (dictGet a.symbol (new.map (fun x => (x.symbol, x)))).isSome = true
      · rw [if_pos hg]
        intro hsome'
        cases hsome'
      · rw [if_neg hg]
        intro hsome'
        cases hsome'
        simp
    rw [hpart1, Nat.zero_add]
    have hget_ho : dictGet ho.symbol (old.map (fun x => (x.symbol, x))) = some ho := by
      rw [hgetOld ho.symbol, filter_sym_of_nodup old ho hOld homem]
      rfl
    by_cases hc : (1 : ℚ) / 1000000 < |ho.weight - hn.weight|
    · rw [if_pos hc]
      refine Eq.trans
        (countP_filterMap_pointwise _ _ (fun a => decide (a.symbol = ho.symbol)) new ?_)
        (countP_sym_one new ho.symbol hNew (List.mem_map.2 ⟨hn, hnmem, hsym.symm⟩))
      intro a ha
      by_cases has : a.symbol = ho.symbol
      · have haeq : a = hn := List.inj_on_of_nodup_map hNew ha hnmem (has.trans hsym)
        subst haeq
        rw [has, hget_ho]
        simp [hc, has, -one_div]
      · cases hga : dictGet a.symbol (old.map (fun x => (x.symbol, x))) with
        | none => simp [has]
        | some oi =>
          by_cases hc2 : (1 : ℚ) / 1000000 < |oi.weight - a.weight|
          · simp [hc2, has, -one_div]
          · simp [hc2, has, -one_div]
    · rw [if_neg hc]
      refine Eq.trans
        (countP_filterMap_pointwise _ _ (fun _ => false) new ?_)
        (by simp : List.countP (fun _ => false) new = 0)
      intro a ha
      by_cases has : a.symbol = ho.symbol
      · have haeq : a = hn := List.inj_on_of_nodup_map hNew ha hnmem (has.trans hsym)
        subst haeq
        rw [has, hget_ho]
        simp [hc, -one_div]
      · cases hga : dictGet a.symbol (old.map (fun x => (x.symbol, x))) with
        | none => simp [has]
        | some oi =>
          by_cases hc2 : (1 : ℚ) / 1000000 < |oi.weight - a.weight|
          · simp [hc2, has, -one_div]
          · simp [hc2, -one_div]

theorem call_qwen_loop_attempts (env : Nat → QwenOutcome) :
    ∀ (rem a : Nat) (sl : List Nat), (call_qwen_loop env a rem sl).2.2 ≤ a + rem := by
  intro rem
  induction rem with
  | zero =>
    intro a sl
    simp [call_qwen_loop]
  | succ n ih =>
    intro a sl
    cases henv : env a with
    | resp st t =>
      by_cases hst : 400 ≤ st
      · simp [call_qwen_loop, henv, raiseStatus, hst]
      · simp [call_qwen_loop, henv, raiseStatus, hst]
    | reqErr m =>
      by_cases hn : n = 0
      · subst hn
        simp [call_qwen_loop, henv]
      · have hrec := ih (a + 1) (sl ++ [2 ^ a])
        simp only [call_qwen_loop, henv, if_neg hn]
        exact hrec.trans (by omega)

/-- Claim C4: `call_qwen` makes at most 3 HTTP attempts; after failed
attempt `i` (`i` = 1, 2) it sleeps `2^(i-1)` seconds before retrying; when
all three attempts raise request errors, it gives up re-raising the last
error (sleeps `[1, 2]`); the first successful attempt returns the stripped
`output.text`. -/
theorem call_qwen_spec (env : Nat → QwenOutcome) :
    (call_qwen env).2.2 ≤ 3
    ∧ (∀ e0 e1 e2, env 0 = .reqErr e0 → env 1 = .reqErr e1 → env 2 = .reqErr e2 →
        call_qwen env = (.error (.reqErr e2), [1, 2], 3))
    ∧ (∀ st t, st < 400 → env 0 = .resp st t →
        call_qwen env = (.ok (pyStrip t), [], 1))
    ∧ (∀ e0 st t, env 0 = .reqErr e0 → st < 400 → env 1 = .resp st t →
        call_qwen env = (.ok (pyStrip t), [1], 2))
    ∧ (∀ e0 e1 st t, env 0 = .reqErr e0 → env 1 = .reqErr e1 → st < 400 →
        env 2 = .resp st t →
        call_qwen env = (.ok (pyStrip t), [1, 2], 3)) := by
  refine ⟨call_qwen_loop_attempts env 3 0 [], ?_, ?_, ?_, ?_⟩
  · intro e0 e1 e2 h0 h1 h2
    simp [call_qwen, call_qwen_loop, h0, h1, h2]
  · intro st t hst h0
    simp [call_qwen, call_qwen_loop, h0, raiseStatus, Nat.not_le.2 hst]
  · intro e0 st t h0 hst h1
    simp [call_qwen, call_qwen_loop, h0, h1, raiseStatus, Nat.not_le.2 hst]
  · intro e0 e1 st t h0 h1 hst h2
    simp [call_qwen, call_qwen_loop, h0, h1, h2, raiseStatus, Nat.not_le.2 hst]

/-- Witness for `call_qwen_spec`: two request errors followed by a 200
response end in success after sleeps of 1 and 2 seconds, three attempts. -/
theorem call_qwen_spec_witness :
    call_qwen (fun i =>
        if i = 0 then .reqErr (str "ReadTimeout: timed out")
        else if i = 1 then .reqErr (str "ConnectError: refused")
        else .resp 200 (str " advice ")) =
      (.ok (pyStrip (str " advice ")), [1, 2], 3) :=
  (call_qwen_spec (fun i =>
      if i = 0 then .reqErr (str "ReadTimeout: timed out")
      else if i = 1 then .reqErr (str "ConnectError: refused")
      else .resp 200 (str " advice "))).2.2.2.2
    (str "ReadTimeout: timed out") (str "ConnectError: refused") 200 (str " advice ")
    rfl rfl (by decide) rfl

/-- Witness for `compare_spec`: one symbol dropped between two concrete
holdings snapshots yields its REMOVE-row count from the theorem. -/
theorem compare_spec_witness :
    (compare (str "2025-08-09")
        [⟨str "a", str "A", 1 / 10⟩, ⟨str "b", str "B", 2 / 10⟩]
        [⟨str "b", str "B", 3 / 10⟩, ⟨str "c", str "C", 1 / 2⟩]).countP
        (fun r => decide (r.typ = ChangeType.REMOVE ∧ r.symbol = str "a")) =
      if str "a" ∈ ([⟨str "a", str "A", 1 / 10⟩,
            ⟨str "b", str "B", 2 / 10⟩] : List Holding).map Holding.symbol ∧
          str "a" ∉ ([⟨str "b", str "B", 3 / 10⟩,
            ⟨str "c", str "C", 1 / 2⟩] : List Holding).map Holding.symbol
      then 1 else 0 :=
  (compare_spec (str "2025-08-09")
    [⟨str "a", str "A", 1 / 10⟩, ⟨str "b", str "B", 2 / 10⟩]
    [⟨str "b", str "B", 3 / 10⟩, ⟨str "c", str "C", 1 / 2⟩]
    (by decide) (by decide)).1 (str "a")

/-- Claim C9: with an empty final keyword list, the filter in
`news_pipeline.main` is bypassed (`not final_kws` short-circuits), so every
collected item is a hit and `briefing.txt` lists all fetched items. -/
theorem empty_keywords_keep_all (items : List PItem) :
    hit_items [] items = items ∧
      briefing_lines [] items = items.map briefing_line := by
  have h : hit_items [] items = items := by
    simp [hit_items]
  exact ⟨h, by simp [briefing_lines, h]⟩

theorem charChunks_le (limit : Nat) (hl : 0 < limit) :
    ∀ (s : Str), ∀ c ∈ charChunks limit s, c.length ≤ limit := by
  have hgen : ∀ (n : Nat) (s : Str), s.length ≤ n →
      ∀ c ∈ charChunks limit s, c.length ≤ limit := by
    intro n
    induction n with
    | zero =>
      intro s hs c hc
      have hnil : s = [] := List.length_eq_zero.1 (Nat.le_zero.1 hs)
      subst hnil
      rw [charChunks] at hc
      simp at hc
    | succ n ih =>
      intro s hs c hc
      rw [charChunks] at hc
      by_cases hcond : limit = 0 ∨ s.isEmpty = true
      · rw [dif_pos hcond] at hc
        simp at hc
      · rw [dif_neg hcond] at hc
        rcases List.mem_cons.1 hc with rfl | hc2
        · rw [List.length_take]
          exact min_le_left _ _
        · refine ih (s.drop limit) ?_ c hc2
          rw [List.length_drop]
          have hlen : s.length ≠ 0 := by
            intro h0
            exact hcond (Or.inr (by rwa [List.isEmpty_iff, ← List.length_eq_zero]))
          omega
  exact fun s => hgen s.length s le_rfl

theorem foldl_preserves {α β : Type} (f : β → α → β) (P : β → Prop)
    (hstep : ∀ st a, P st → P (f st a)) :
    ∀ (l : List α) (st : β), P st → P (l.foldl f st) := by
  intro l
  induction l with
  | nil => intro st h; exact h
  | cons a t ih => intro st h; exact ih (f st a) (hstep st a h)

theorem long_para_step_inv (h : Str → Str) (limit : Nat) (hl : 0 < limit)
    (st : List Str × Str) (ln : Str) (hP : chunkInv h limit st) :
    chunkInv h limit (long_para_step h limit st ln) := by
  unfold long_para_step
  by_cases hb1 : limit < (h ln).length
  · rw [if_pos hb1]
    refine ⟨?_, hP.2⟩
    intro c hc
    rcases List.mem_append.1 hc with hc | hc
    · exact hP.1 c hc
    · exact charChunks_le limit hl (h ln) c hc
  · rw [if_neg hb1]
    by_cases hb2 : (h (st.2 ++ (if st.2.isEmpty then [] else ['\n']) ++ ln)).length ≤ limit
    · rw [if_pos hb2]
      exact ⟨hP.1, Or.inr hb2⟩
    · rw [if_neg hb2]
      have htmp : (h st.2).length ≤ limit := by
        rcases hP.2 with h0 | h0
        · exfalso
          apply hb2
          rw [h0]
          simpa using Nat.le_of_not_lt hb1
        · exact h0
      refine ⟨?_, Or.inr (Nat.le_of_not_lt hb1)⟩
      intro c hc
      rcases List.mem_append.1 hc with hc | hc
      · exact hP.1 c hc
      · rw [List.mem_singleton] at hc
        subst hc
        exact htmp

theorem chunk_long_para_good (h : Str → Str) (limit : Nat) (hl : 0 < limit)
    (out : List Str) (para : Str) (hout : ∀ c ∈ out, c.length ≤ limit) :
    ∀ c ∈ chunk_long_para h limit out para, c.length ≤ limit := by
  intro c hc
  unfold chunk_long_para at hc
  have hP : chunkInv h limit
      ((pySplitlines para).foldl (long_para_step h limit) (out, [])) :=
    foldl_preserves (long_para_step h limit) (chunkInv h limit)
      (fun st a => long_para_step_inv h limit hl st a)
      (pySplitlines para) (out, []) ⟨hout, Or.inl rfl⟩
  by_cases hf : ((pySplitlines para).foldl (long_para_step h limit) (out, [])).2.isEmpty
  · rw [if_pos hf] at hc
    exact hP.1 c hc
  · rw [if_neg hf] at hc
    rcases List.mem_append.1 hc with hc | hc
    · exact hP.1 c hc
    · rw [List.mem_singleton] at hc
      subst hc
      rcases hP.2 with h0 | h0
      · exact absurd (by rw [h0]; rfl) hf
      · exact h0

theorem chunk_flush_good (h : Str → Str) (limit : Nat) (acc : List Str × Str)
    (hP : chunkInv h limit acc) :
    (∀ c ∈ (chunk_flush h limit acc).1, c.length ≤ limit) ∧
      (chunk_flush h limit acc).2 = [] := by
  unfold chunk_flush
  by_cases he : acc.2.isEmpty
  · rw [if_pos he]
    exact ⟨hP.1, List.isEmpty_iff.1 he⟩
  · rw [if_neg he]
    have hb : (h acc.2).length ≤ limit := by
      rcases hP.2 with h0 | h0
      · exact absurd (by rw [h0]; rfl) he
      · exact h0
    rw [if_pos hb]
    refine ⟨?_, rfl⟩
    intro c hc
    rcases List.mem_append.1 hc with hc | hc
    · exact hP.1 c hc
    · rw [List.mem_singleton] at hc
      subst hc
      exact hb

theorem chunk_para_step_inv (h : Str → Str) (limit : Nat) (hl : 0 < limit)
    (st : List Str × Str) (para : Str) (hP : chunkInv h limit st) :
    chunkInv h limit (chunk_para_step h limit st para) := by
  unfold chunk_para_step
  by_cases hb : (h (st.2 ++ (if st.2.isEmpty then [] else str "\n\n") ++ para)).length ≤ limit
  · rw [if_pos hb]
    exact ⟨hP.1, Or.inr hb⟩
  · rw [if_neg hb]
    exact ⟨chunk_long_para_good h limit hl (chunk_flush h limit st).1 para
      (chunk_flush_good h limit st hP).1, Or.inl rfl⟩

theorem chunk_section_good (h : Str → Str) (limit : Nat) (hl : 0 < limit)
    (out : List Str) (sec : Str) (hout : ∀ c ∈ out, c.length ≤ limit) :
    ∀ c ∈ chunk_section h limit out sec, c.length ≤ limit := by
  unfold chunk_section
  exact (chunk_flush_good h limit _
    (foldl_preserves (chunk_para_step h limit) (chunkInv h limit)
      (fun st a => chunk_para_step_inv h limit hl st a)
      (split_paras sec) (out, []) ⟨hout, Or.inl rfl⟩)).1

theorem chunk_markdown_with_le (h : Str → Str) (md : Str) (limit : Nat)
    (hl : 0 < limit) : ∀ c ∈ chunk_markdown_with h md limit, c.length ≤ limit := by
  unfold chunk_markdown_with
  exact foldl_preserves (chunk_section h limit) (fun out => ∀ c ∈ out, c.length ≤ limit)
    (fun out sec hout => chunk_section_good h limit hl out sec hout)
    (split_markdown_sections md) [] (by intro c hc; simp at hc)

/-- Claim C5: every chunk produced by `_chunk_markdown` is at most `limit`
characters long, for every positive limit (in particular the 3900 that
`push_telegram` passes); the bound holds for any markdown→HTML converter,
hence for `md_to_telegram_html`. -/
theorem chunk_markdown_le (md : Str) (limit : Nat) (hl : 0 < limit) :
    ∀ c ∈ chunk_markdown md limit, c.length ≤ limit :=
  chunk_markdown_with_le md_to_telegram_html md limit hl

/-- Witness for `chunk_markdown_le` at the Telegram limit 3900. -/
theorem chunk_markdown_le_witness :
    0 < 3900 ∧ ∀ c ∈ chunk_markdown (str "hello **world**") 3900, c.length ≤ 3900 :=
  ⟨by decide, chunk_markdown_le (str "hello **world**") 3900 (by decide)⟩

theorem except_pure {α : Type} (a : α) :
    (pure a : Except HErr α) = .ok a := rfl

theorem except_bind_ok {α β : Type} (a : α) (f : α → Except HErr β) :
    (Except.ok a >>= f) = f a := rfl

theorem except_bind_err {α β : Type} (e : HErr) (f : α → Except HErr β) :
    ((Except.error e : Except HErr α) >>= f) = .error e := rfl

theorem except_map_ok {α β : Type} (g : α → β) (a : α) :
    (g <$> (Except.ok a : Except HErr α)) = .ok (g a) := rfl

theorem except_map_err {α β : Type} (g : α → β) (e : HErr) :
    (g <$> (Except.error e : Except HErr α)) = .error e := rfl

theorem push_serverchan_ok (key : Str) (post : Fetch Resp) :
    ∃ l, push_serverchan key post = .ok l := by
  unfold push_serverchan
  by_cases hk : key.isEmpty
  · rw [if_pos hk]
    exact ⟨[], rfl⟩
  · rw [if_neg hk]
    cases post with
    | netErr m =>
      exact ⟨[str "ServerChan push failed"],
        by simp [pyTry, doFetch, isHTTPError, Except.bind, except_pure, except_bind_ok, except_bind_err, except_map_ok, except_map_err]⟩
    | got r =>
      by_cases hst : 400 ≤ r.status
      · exact ⟨[str "ServerChan push failed"],
          by simp [pyTry, doFetch, respRaise, raiseStatus, hst, isHTTPError, Except.bind, except_pure, except_bind_ok, except_bind_err, except_map_ok, except_map_err]⟩
      · exact ⟨[],
          by simp [pyTry, doFetch, respRaise, raiseStatus, hst, Except.bind, except_pure, except_bind_ok, except_bind_err, except_map_ok, except_map_err]⟩

theorem foldlM_ok {α β : Type} (g : β → α → Except HErr β)
    (hg : ∀ b a, ∃ b2, g b a = .ok b2) :
    ∀ (l : List α) (b : β), ∃ b2, l.foldlM g b = .ok b2 := by
  intro l
  induction l with
  | nil => intro b; exact ⟨b, rfl⟩
  | cons a t ih =>
    intro b
    obtain ⟨b2, hb2⟩ := hg b a
    obtain ⟨b3, hb3⟩ := ih b2
    refine ⟨b3, ?_⟩
    rw [List.foldlM_cons, hb2]
    exact hb3

theorem foldSeg_ok_or_req (env : TgEnv) (i : Nat) :
    ∀ (ps : List (Nat × Str)) (u : Unit),
      ps.foldlM (tg_seg_step env i) u = .ok ()
      ∨ ∃ m, ps.foldlM (tg_seg_step env i) u = .error (.reqErr m) := by
  intro ps
  induction ps with
  | nil => intro u; exact Or.inl rfl
  | cons p t ih =>
    intro u
    cases hsp : env.sendSeg i p.1 with
    | netErr m =>
      refine Or.inr ⟨m, ?_⟩
      have hstep : tg_seg_step env i u p = Except.error (.reqErr m) := by
        unfold tg_seg_step
        rw [hsp]
        rfl
      simp only [List.foldlM_cons, hstep, except_bind_err]
    | got r2 =>
      have hstep : tg_seg_step env i u p = Except.ok () := by
        unfold tg_seg_step
        rw [hsp]
        rfl
      rcases ih () with h | ⟨m, hm⟩
      · refine Or.inl ?_
        simp only [List.foldlM_cons, hstep, except_bind_ok]
        exact h
      · refine Or.inr ⟨m, ?_⟩
        simp only [List.foldlM_cons, hstep, except_bind_ok]
        exact hm

theorem tg_chunk_try_ok (env : TgEnv) (i : Nat) (body : Str) :
    ∃ l, tg_chunk_try env i body = .ok l := by
  unfold tg_chunk_try
  cases hs : env.send i with
  | netErr m =>
    exact ⟨[str "TG send network error"],
      by simp [pyTry, doFetch, isRequestError, Except.bind, except_pure, except_bind_ok, except_bind_err, except_map_ok, except_map_err]⟩
  | got r =>
    by_cases hcond : r.status ≠ 200 ∨ r.okFlag = false
    · by_cases hent : pyIn (str "entities") r.desc = true
      · cases hp : env.sendPlain i with
        | netErr m =>
          exact ⟨[str "TG send network error"],
            by simp [pyTry, doFetch, hcond, hent, isRequestError, Except.bind, except_pure, except_bind_ok, except_bind_err, except_map_ok, except_map_err]⟩
        | got r2 =>
          exact ⟨[str "TG send failed", str "entities fallback sent"],
            by simp [pyTry, doFetch, hcond, hent, Except.bind, except_pure, except_bind_ok, except_bind_err, except_map_ok, except_map_err]⟩
      · by_cases hlong : pyIn (str "message is too long") (pyLower r.desc) = true
        · rcases foldSeg_ok_or_req env i (chunk_markdown (strip_html body) 3000).enum ()
            with hfold | ⟨m, hfold⟩
          · refine ⟨[str "TG send failed", str "too-long fallback sent"], ?_⟩
            simp [pyTry, doFetch, hcond, hent, hlong, hfold, Except.bind, except_pure, except_bind_ok, except_bind_err, except_map_ok, except_map_err]
          · refine ⟨[str "TG send network error"], ?_⟩
            simp [pyTry, doFetch, hcond, hent, hlong, hfold, isRequestError,
              Except.bind, except_pure, except_bind_ok, except_bind_err, except_map_ok, except_map_err]
        · exact ⟨[str "TG send failed"],
            by simp [pyTry, doFetch, hcond, hent, hlong, Except.bind, except_pure, except_bind_ok, except_bind_err, except_map_ok, except_map_err]⟩
    · exact ⟨[], by simp [pyTry, doFetch, hcond, Except.bind, except_pure, except_bind_ok, except_bind_err, except_map_ok, except_map_err]⟩

theorem push_telegram_ok (token chatId : Str) (env : TgEnv) (md : Str) :
    ∃ l, push_telegram token chatId env md = .ok l := by
  unfold push_telegram
  by_cases he : token.isEmpty ∨ chatId.isEmpty
  · rw [if_pos he]
    exact ⟨[str "TG env missing"], rfl⟩
  · rw [if_neg he]
    cases env.getMe with
    | netErr m => exact ⟨[str "TG getMe network error"], rfl⟩
    | got gm =>
      refine foldlM_ok _ ?_ _ _
      intro acc p
      obtain ⟨l, hl⟩ := tg_chunk_try_ok env p.1 p.2
      exact ⟨acc ++ l, by simp [hl, Except.bind, except_pure, except_bind_ok, except_bind_err, except_map_ok, except_map_err]⟩

theorem push_bark_ok (md : Str) (post fallback : Fetch Resp) :
    ∃ l, push_bark md post fallback = .ok l := by
  unfold push_bark
  have hfb : ∃ l, bark_fallback_try fallback = Except.ok l := by
    unfold bark_fallback_try
    cases fallback with
    | netErr m =>
      exact ⟨[str "Bark push failed", str "Bark fallback failed"],
        by simp [pyTry, doFetch, isHTTPError, Except.bind, except_pure, except_bind_ok, except_bind_err, except_map_ok, except_map_err]⟩
    | got r2 =>
      by_cases hst : 400 ≤ r2.status
      · exact ⟨[str "Bark push failed", str "Bark fallback failed"],
          by simp [pyTry, doFetch, respRaise, raiseStatus, hst, isHTTPError, Except.bind, except_pure, except_bind_ok, except_bind_err, except_map_ok, except_map_err]⟩
      · exact ⟨[str "Bark push failed", str "Bark fallback ok: " ++ r2.text.take 120],
          by simp [pyTry, doFetch, respRaise, raiseStatus, hst, Except.bind, except_pure, except_bind_ok, except_bind_err, except_map_ok, except_map_err]⟩
  obtain ⟨lf, hlf⟩ := hfb
  cases post with
  | netErr m =>
    exact ⟨lf, by simp [pyTry, doFetch, isHTTPError, Except.bind, except_pure, except_bind_ok, except_bind_err, except_map_ok, except_map_err, hlf]⟩
  | got r =>
    by_cases hst : 400 ≤ r.status
    · exact ⟨lf, by simp [pyTry, doFetch, respRaise, raiseStatus, hst, isHTTPError,
        Except.bind, except_pure, except_bind_ok, except_bind_err, except_map_ok, except_map_err, hlf]⟩
    · exact ⟨[str "Bark push ok: " ++ r.text.take 120],
        by simp [pyTry, doFetch, respRaise, raiseStatus, hst, Except.bind, except_pure, except_bind_ok, except_bind_err, except_map_ok, except_map_err]⟩

/-- Claim C7: for every environment of HTTP outcomes and every text, the
three push functions catch their channels' HTTP/network errors and return
normally, so the push phase of `daily_push_qwen.main` runs all three
channels in order. -/
theorem push_best_effort (sckey token chatId answer : Str) (scPost : Fetch Resp)
    (tgEnv : TgEnv) (barkPost barkFallback : Fetch Resp) :
    (∃ l, push_serverchan sckey scPost = .ok l)
    ∧ (∃ l, push_telegram token chatId tgEnv answer = .ok l)
    ∧ (∃ l, push_bark answer barkPost barkFallback = .ok l)
    ∧ (∃ l1 l2 l3,
        push_serverchan sckey scPost = .ok l1
        ∧ push_telegram token chatId tgEnv answer = .ok l2
        ∧ push_bark answer barkPost barkFallback = .ok l3
        ∧ push_all sckey token chatId answer scPost tgEnv barkPost barkFallback =
            .ok (l1 ++ l2 ++ l3)) := by
  obtain ⟨l1, h1⟩ := push_serverchan_ok sckey scPost
  obtain ⟨l2, h2⟩ := push_telegram_ok token chatId tgEnv answer
  obtain ⟨l3, h3⟩ := push_bark_ok answer barkPost barkFallback
  exact ⟨⟨l1, h1⟩, ⟨l2, h2⟩, ⟨l3, h3⟩, l1, l2, l3, h1, h2, h3,
    by simp [push_all, h1, h2, h3, Except.bind, except_pure, except_bind_ok, except_bind_err, except_map_ok, except_map_err]⟩

end Invest
